import Mathlib

/-! Type lowering of the eBPF backend (`backends/ebpf/ebpfType.h`, `ebpfType.cpp`).

A shallow embedding of `EBPFTypeFactory::create` and of the seven `EBPFType`
classes, with the width computations (`widthInBits`,
`implementationWidthInBits`) and the textual operations (`emit`, `declare`,
`emitInitializer`, `declareArray`).

Conventions of the embedding:

* `unsigned` is a natural number reduced modulo `2 ^ 32` wherever the C++ code
  does arithmetic on it.
* A pointer that may be null is an `Option`.
* `::error` appends a diagnostic to a list that is returned next to the value;
  `BUG`/`BUG_CHECK` and a null dereference end the computation.
* `EBPFTypeFactory::create` recurses through the answers of the type map, which
  is an arbitrary function here, so it takes a recursion budget and reports
  `timeout` when the budget is used up.
* The pointers that the code guards with `CHECK_NULL` (the type given to
  `create`, the type map, the node of a stack) are not null.
-/

namespace EBPF

/-! ## The IR types that `create` inspects -/

/-- The subclasses of `IR::Type_StructLike`; `Other` stands for a subclass that
is none of the three the backend names. -/
inductive StructLikeKind where
  | Type_Header
  | Type_Struct
  | Type_HeaderUnion
  | Other
  deriving DecidableEq, Repr

/-- The `IR::Type` nodes, restricted to what `ebpfType.cpp` reads of them. A
field of a struct-like type (`IR::StructField`) is the pair of its name and its
declared type `f->type`. `Type_Other` stands for every class that `create` has
no branch for. -/
inductive IRType where
  | Type_Boolean
  | Type_Bits (size : Nat) (isSigned : Bool)
  | Type_Varbits (size : Nat)
  | Type_StructLike (kind : StructLikeKind) (name : String) (fields : List (String × IRType))
  | Type_Typedef (name : String) (type : IRType)
  | Type_Name (path : String)
  | Type_Enum (name : String) (members : List String)
  | Type_Stack (elementType : IRType) (size : Nat)
  | Type_Other (description : String)

/-- An `IR::StructField`: `name` and `type`. -/
abbrev StructField := String × IRType

/-- The `P4::TypeMap` as far as `create` consults it: `getType(f, true)` on a
field and `getTypeType(type, true)` on a type. -/
structure TypeMap where
  getType : StructField → IRType
  getTypeType : IRType → IRType

/-- The diagnostics that `ebpfType.cpp` reports through `::error`, one
constructor for each message, carrying the node named in the message. -/
inductive Diagnostic where
  /-- Message "%1%: varbit types not supported". -/
  | varbitNotSupported (fieldType : IRType)
  /-- Message "Structure %1% width is not an integral number of bytes". -/
  | notIntegralBytes (header : IRType)
  /-- Message "EBPF: Unsupported type in struct: %s". -/
  | unsupportedInStruct (fieldType : IRType)
  /-- Message "Type %1% does not have a fixed witdh". -/
  | noFixedWidth (type : IRType)
  /-- Message "Type %1% not supported". -/
  | typeNotSupported (type : IRType)

/-- Is the node a `Type_Varbits`? (`ft->is<IR::Type_Varbits>()`) -/
def IRType.isVarbits : IRType → Bool
  | .Type_Varbits _ => true
  | _ => false

/-- Arithmetic on `unsigned` wraps at this modulus. -/
def UINT_RANGE : Nat := 2 ^ 32

/-! ## Width policy -/

/-- Modelled from the spec: the macro `ROUNDUP` of `lib/algorithm.h`, which
`bytesRequired` calls as `ROUNDUP(width, 8)`, is not among the sources; the spec
gives the byte count of a width as `ceil(bits/8)`. -/
def ROUNDUP (x y : Nat) : Nat := (x + y - 1) / y

/-! ## The representations -/

/-- `EBPFStructType::EBPFField`, over the type of representations. -/
structure EBPFField (τ : Type) where
  comment : Option String
  type : Option τ
  field : StructField

/-- The seven classes derived from `EBPFType`, each with the members it stores
(`type` is the member of the base class). -/
inductive EBPFType where
  | EBPFBoolType
  | EBPFStackType (type : IRType) (elementType : EBPFType) (size : Nat)
  | EBPFScalarType (type : IRType) (width : Nat) (isSigned : Bool)
  | EBPFTypeName (type : IRType) (canonical : Option EBPFType)
  | EBPFHeaderType (type : IRType) (width : Nat) (name : String)
  | EBPFStructType (type : IRType) (kind : String) (name : String)
      (fields : List (EBPFField EBPFType)) (width : Nat) (implWidth : Nat)
  | EBPFEnumType (type : IRType)

/-- The dynamic cast to `IHasWidth`: it succeeds on an object of a class that
lists `IHasWidth` among its bases, which all seven classes do. -/
def EBPFType.isIHasWidth : EBPFType → Bool
  | .EBPFBoolType => true
  | .EBPFStackType _ _ _ => true
  | .EBPFScalarType _ _ _ => true
  | .EBPFTypeName _ _ => true
  | .EBPFHeaderType _ _ _ => true
  | .EBPFStructType _ _ _ _ _ _ => true
  | .EBPFEnumType _ => true

/-- `EBPFScalarType::bytesRequired`. -/
def EBPFScalarType.bytesRequired (width : Nat) : Nat := ROUNDUP width 8

/-- `EBPFScalarType::generatesScalar`. -/
def EBPFScalarType.generatesScalar (width : Nat) : Bool := width ≤ 64

/-- The cast `dynamic_cast<IHasWidth*>(p)` of a pointer that may be null. -/
def toIHasWidth (p : Option EBPFType) : Option EBPFType :=
  match p with
  | none => none
  | some r => if r.isIHasWidth then some r else none

/-- `widthInBits()` of each class: the value returned and the diagnostics
reported on the way. The element of a stack is checked by the constructor to be
an `IHasWidth`, so `elementType->to<IHasWidth>()` is the element itself. -/
def EBPFType.widthInBits : EBPFType → Nat × List Diagnostic
  | .EBPFBoolType => (1, [])
  | .EBPFStackType _ elementType size =>
      ((size * elementType.widthInBits.1) % UINT_RANGE, elementType.widthInBits.2)
  | .EBPFScalarType _ width _ => (width, [])
  | .EBPFTypeName type canonical =>
      match canonical with
      | none => (0, [.noFixedWidth type])
      | some wt =>
          if wt.isIHasWidth then wt.widthInBits else (0, [.noFixedWidth type])
  | .EBPFHeaderType _ width _ => (width, [])
  | .EBPFStructType _ _ _ _ width _ => (width, [])
  | .EBPFEnumType _ => (32, [])

/-- `implementationWidthInBits()` of each class, with the diagnostics reported
on the way. -/
def EBPFType.implementationWidthInBits : EBPFType → Nat × List Diagnostic
  | .EBPFBoolType => (8, [])
  | .EBPFStackType _ elementType size =>
      ((size * elementType.implementationWidthInBits.1) % UINT_RANGE,
        elementType.implementationWidthInBits.2)
  | .EBPFScalarType _ width _ =>
      ((EBPFScalarType.bytesRequired width * 8) % UINT_RANGE, [])
  | .EBPFTypeName type canonical =>
      match canonical with
      | none => (0, [.noFixedWidth type])
      | some wt =>
          if wt.isIHasWidth then wt.implementationWidthInBits
          else (0, [.noFixedWidth type])
  | .EBPFHeaderType _ width _ => (width, [])
  | .EBPFStructType _ _ _ _ _ implWidth => (implWidth, [])
  | .EBPFEnumType _ => (32, [])

/-! ## The factory -/

/-- How a computation can end without a result: a `BUG`/`BUG_CHECK`, the
dereference of a null pointer, or (in `create` only) the recursion budget
running out. -/
inductive Abort where
  | bug (message : String)
  | nullDereference
  | timeout
  deriving DecidableEq

/-- The result of the factory: the pointer returned (null is `none`) and the
diagnostics reported, or an abort. -/
abbrev Created := Except Abort (Option EBPFType × List Diagnostic)

/-- The loop of the `Type_Header` branch of `create`, from the state
`(width, diagnostics)` before a field to the state after it. -/
def headerFieldStep (typeMap : TypeMap) (width_bits : IRType → Nat)
    (st : Nat × List Diagnostic) (f : StructField) : Nat × List Diagnostic :=
  let ft := typeMap.getType f
  if ft.isVarbits then (st.1, st.2 ++ [.varbitNotSupported f.2])
  else ((st.1 + width_bits ft) % UINT_RANGE, st.2)

/-- The `Type_Header` branch of `create`: `width_bits` is `IR::Type::width_bits`
(declared in the IR, not among the sources), already converted to `unsigned`. -/
def createHeader (typeMap : TypeMap) (width_bits : IRType → Nat)
    (th : IRType) (name : String) (fields : List StructField) :
    Option EBPFType × List Diagnostic :=
  let st := fields.foldl (headerFieldStep typeMap width_bits) (0, [])
  let errors := if st.1 % 8 ≠ 0 then st.2 ++ [.notIntegralBytes th] else st.2
  (some (.EBPFHeaderType th st.1 name), errors)

/-- The members that the constructor of `EBPFStructType` fills in its loop, and
the diagnostics reported so far. -/
structure StructState where
  fields : List (EBPFField EBPFType)
  width : Nat
  implWidth : Nat
  errors : List Diagnostic

/-- One iteration of the loop over `strct->fields` in the constructor of
`EBPFStructType`; `create` is `EBPFTypeFactory::instance->create`. -/
def EBPFStructType.fieldStep (create : IRType → Created) (st : StructState)
    (f : StructField) : Except Abort StructState :=
  match create f.2 with
  | .error a => .error a
  | .ok (type, errs) =>
      match toIHasWidth type with
      | none =>
          .ok { fields := st.fields ++ [⟨none, type, f⟩]
                width := st.width
                implWidth := st.implWidth
                errors := st.errors ++ errs ++ [.unsupportedInStruct f.2] }
      | some wt =>
          .ok { fields := st.fields ++ [⟨none, type, f⟩]
                width := (st.width + wt.widthInBits.1) % UINT_RANGE
                implWidth := (st.implWidth + wt.implementationWidthInBits.1) % UINT_RANGE
                errors := st.errors ++ errs ++ wt.widthInBits.2
                            ++ wt.implementationWidthInBits.2 }

/-- The loop over `strct->fields` in the constructor of `EBPFStructType`. -/
def EBPFStructType.fieldLoop (create : IRType → Created) :
    List StructField → StructState → Except Abort StructState
  | [], st => .ok st
  | f :: fs, st =>
      match EBPFStructType.fieldStep create st f with
      | .error a => .error a
      | .ok st' => EBPFStructType.fieldLoop create fs st'

/-- The choice of `kind` at the head of the constructor of `EBPFStructType`;
`none` is the `BUG` branch. A header is tested as a struct-like type that is
neither a struct nor a header union. -/
def EBPFStructType.kindOf : StructLikeKind → Option String
  | .Type_Struct => some "struct"
  | .Type_HeaderUnion => some "union"
  | _ => none

/-- The constructor `EBPFStructType::EBPFStructType(strct)` on a struct-like
node with the given kind, name and fields. -/
def EBPFStructType.new (create : IRType → Created) (strct : IRType)
    (k : StructLikeKind) (name : String) (fields : List StructField) :
    Except Abort (EBPFType × List Diagnostic) :=
  match EBPFStructType.kindOf k with
  | none => .error (.bug "Unexpected struct type")
  | some kind =>
      match EBPFStructType.fieldLoop create fields ⟨[], 0, 0, []⟩ with
      | .error a => .error a
      | .ok st => .ok (.EBPFStructType strct kind name st.fields st.width st.implWidth, st.errors)

/-- The constructor `EBPFStackType::EBPFStackType(type, elementType)` on a
non-null element: the `BUG_CHECK` on the element, then the members. -/
def EBPFStackType.new (type : IRType) (elementType : EBPFType) (size : Nat) :
    Except Abort EBPFType :=
  if elementType.isIHasWidth then .ok (.EBPFStackType type elementType size)
  else .error (.bug "Unexpected element type")

/-- `EBPFTypeFactory::create(type)` with a recursion budget: each nested call of
`create` spends one unit. -/
def create (typeMap : TypeMap) (width_bits : IRType → Nat) : Nat → IRType → Created
  | 0, _ => .error .timeout
  | fuel + 1, type =>
      match type with
      | .Type_Boolean => .ok (some .EBPFBoolType, [])
      | .Type_Bits size isSigned =>
          .ok (some (.EBPFScalarType type (size % UINT_RANGE) isSigned), [])
      | .Type_StructLike .Type_Header name fields =>
          .ok (createHeader typeMap width_bits type name fields)
      | .Type_StructLike k name fields =>
          match EBPFStructType.new (create typeMap width_bits fuel) type k name fields with
          | .error a => .error a
          | .ok (result, errs) => .ok (some result, errs)
      | .Type_Typedef name _ =>
          match create typeMap width_bits fuel (typeMap.getTypeType type) with
          | .error a => .error a
          | .ok (none, errs) => .ok (none, errs)
          | .ok (some result, errs) =>
              .ok (some (.EBPFTypeName (.Type_Name name) (some result)), errs)
      | .Type_Name _ =>
          match create typeMap width_bits fuel (typeMap.getTypeType type) with
          | .error a => .error a
          | .ok (result, errs) => .ok (some (.EBPFTypeName type result), errs)
      | .Type_Enum _ _ => .ok (some (.EBPFEnumType type), [])
      | .Type_Stack elementType size =>
          match create typeMap width_bits fuel elementType with
          | .error a => .error a
          | .ok (none, errs) => .ok (none, errs)
          | .ok (some et, errs) =>
              match EBPFStackType.new type et (size % UINT_RANGE) with
              | .error a => .error a
              | .ok result => .ok (some result, errs)
      | _ => .ok (none, [.typeNotSupported type])

/-! ## The code builder -/

/-- Modelled from the spec: the class `CodeBuilder` (`lib/sourceCodeBuilder.h`
and `ebpfObject.h`) is not among the sources. The spec lists its operations:
literal append, formatted append, "append a space separator", block-start
(opens a brace, increases indent), block-end(withTerminator) (closes a brace,
optionally appends a statement terminator), end-of-statement(withNewline),
newline, indent-to-current-level. The state is the text written so far and the
current indentation. -/
structure CodeBuilder where
  buffer : String
  indentLevel : Nat
  deriving DecidableEq

/-- Modelled from the spec: the step by which block-start increases the indent
and block-end takes it back; the spec gives no amount, four columns are taken. -/
def indentAmount : Nat := 4

namespace CodeBuilder

/-- Modelled from the spec: literal append; a formatted append is the append of
the text with the values substituted. -/
def append (b : CodeBuilder) (str : String) : CodeBuilder :=
  { b with buffer := b.buffer ++ str }

/-- Modelled from the spec: append a space separator. -/
def spc (b : CodeBuilder) : CodeBuilder := b.append " "

/-- Modelled from the spec: newline. -/
def newline (b : CodeBuilder) : CodeBuilder := b.append "\n"

/-- Modelled from the spec: literal append followed by newline (`appendLine`). -/
def appendLine (b : CodeBuilder) (str : String) : CodeBuilder := (b.append str).newline

/-- Modelled from the spec: indent-to-current-level. -/
def emitIndent (b : CodeBuilder) : CodeBuilder :=
  b.append (String.mk (List.replicate b.indentLevel ' '))

/-- Modelled from the spec: end-of-statement(withNewline), the terminator `;`
and a line break on request. -/
def endOfStatement (b : CodeBuilder) (addNl : Bool) : CodeBuilder :=
  if addNl then (b.append ";").newline else b.append ";"

/-- Modelled from the spec: block-start, which opens a brace and increases the
indent; the members of a block are written one per line, so a line break
follows the brace. -/
def blockStart (b : CodeBuilder) : CodeBuilder :=
  { (b.append "\x7b").newline with indentLevel := b.indentLevel + indentAmount }

/-- Modelled from the spec: block-end(withTerminator), which closes a brace at
the indent of the block's head and appends a statement terminator on request. -/
def blockEnd (b : CodeBuilder) (withTerminator : Bool) : CodeBuilder :=
  let b' := (CodeBuilder.emitIndent
    { b with indentLevel := b.indentLevel - indentAmount }).append "\x7d"
  if withTerminator then b'.endOfStatement false else b'

end CodeBuilder

/-- The result of an operation that writes to the builder. -/
abbrev Emitted := Except Abort CodeBuilder

/-! ## The textual operations -/

/-- The member `type` of the base class `EBPFType`, as each constructor sets
it. -/
def EBPFType.type : EBPFType → IRType
  | .EBPFBoolType => .Type_Boolean
  | .EBPFStackType type _ _ => type
  | .EBPFScalarType type _ _ => type
  | .EBPFTypeName type _ => type
  | .EBPFHeaderType type _ _ => type
  | .EBPFStructType type _ _ _ _ _ => type
  | .EBPFEnumType type => type

/-- `EBPFBoolType::emit`. -/
def EBPFBoolType.emit (builder : CodeBuilder) : CodeBuilder := builder.append "u8"

/-- `EBPFBoolType::declare`. -/
def EBPFBoolType.declare (builder : CodeBuilder) (id : String) : CodeBuilder :=
  (EBPFBoolType.emit builder).append (" " ++ id)

/-- `EBPFScalarType::alignment`. -/
def EBPFScalarType.alignment (width : Nat) : Nat :=
  if width ≤ 8 then 1
  else if width ≤ 16 then 2
  else if width ≤ 32 then 4
  else if width ≤ 64 then 8
  else 1

/-- `EBPFScalarType::emit`; `pre` is the local `prefix`. -/
def EBPFScalarType.emit (width : Nat) (isSigned : Bool) (builder : CodeBuilder) :
    CodeBuilder :=
  let pre := if isSigned then "i" else "u"
  if width ≤ 8 then builder.append (pre ++ "8")
  else if width ≤ 16 then builder.append (pre ++ "16")
  else if width ≤ 32 then builder.append (pre ++ "32")
  else if width ≤ 64 then builder.append (pre ++ "64")
  else builder.append "u8*"

/-- `EBPFScalarType::declare`. -/
def EBPFScalarType.declare (width : Nat) (isSigned : Bool) (builder : CodeBuilder)
    (id : String) : CodeBuilder :=
  if EBPFScalarType.generatesScalar width then
    ((EBPFScalarType.emit width isSigned builder).spc).append id
  else
    builder.append ("u8 " ++ id ++ "[" ++ toString (EBPFScalarType.bytesRequired width) ++ "]")

/-- `EBPFHeaderType::declare`. -/
def EBPFHeaderType.declare (name : String) (builder : CodeBuilder) (id : String) :
    CodeBuilder :=
  builder.append ("struct " ++ name ++ " " ++ id)

/-- `EBPFHeaderType::emitInitializer`. -/
def EBPFHeaderType.emitInitializer (builder : CodeBuilder) : CodeBuilder :=
  ((((builder.blockStart).emitIndent).appendLine ".data = \x7b 0 \x7d,").emitIndent.appendLine
    ".valid = 0").blockEnd false

/-- `EBPFHeaderType::emit`. The call `EBPFTypeFactory::instance->create` on
`IR::Type_Boolean::get()` takes the first branch of `create` and yields an
`EBPFBoolType`, whose `declare` writes the flag. -/
def EBPFHeaderType.emit (width : Nat) (name : String) (builder : CodeBuilder) :
    CodeBuilder :=
  let b := ((((builder.emitIndent).append "struct").spc).append name).spc.blockStart
  let b := ((b.emitIndent).append ("char data[" ++ toString (width / 8) ++ "]")).endOfStatement true
  let b := (EBPFBoolType.declare b.emitIndent "valid").endOfStatement true
  (b.blockEnd false).endOfStatement true

/-- `EBPFStructType::declare`. -/
def EBPFStructType.declare (kind name : String) (builder : CodeBuilder) (id : String) :
    CodeBuilder :=
  (builder.append kind).append (" " ++ name ++ " " ++ id)

/-- `EBPFStructType::declareArray`. -/
def EBPFStructType.declareArray (name : String) (builder : CodeBuilder) (id : String)
    (size : Nat) : CodeBuilder :=
  builder.append (name ++ " " ++ id ++ "[" ++ toString size ++ "]")

/-- `EBPFEnumType::getType`: the cast of `type` to `Type_Enum`, null when the
node is of another class. -/
def EBPFEnumType.getType : IRType → Option (String × List String)
  | .Type_Enum name members => some (name, members)
  | _ => none

/-- `EBPFEnumType::declare`. -/
def EBPFEnumType.declare (type : IRType) (builder : CodeBuilder) (id : String) : Emitted :=
  match EBPFEnumType.getType type with
  | none => .error .nullDereference
  | some et => .ok ((((builder.append "enum ").append et.1).append " ").append id)

/-- `EBPFEnumType::emit`. -/
def EBPFEnumType.emit (type : IRType) (builder : CodeBuilder) : Emitted :=
  match EBPFEnumType.getType type with
  | none => .error .nullDereference
  | some et =>
      let b := ((builder.append "enum ").append et.1).blockStart
      let b := et.2.foldl (fun b m => (b.append m).appendLine ",") b
      .ok (b.blockEnd true)

/-- The loop of `EBPFStackType::emitInitializer`: `remaining` iterations are
left, the next one has index `i`, and `emitElement` is the `emitInitializer` of
the element. -/
def EBPFStackType.initializerLoop (emitElement : CodeBuilder → Emitted) :
    (remaining : Nat) → (i : Nat) → CodeBuilder → Emitted
  | 0, _, builder => .ok builder
  | remaining + 1, i, builder =>
      match emitElement (if i > 0 then builder.append ", " else builder) with
      | .error a => .error a
      | .ok b => EBPFStackType.initializerLoop emitElement remaining (i + 1) b

mutual

/-- `declare(builder, id)` of each class. -/
def EBPFType.declare : EBPFType → CodeBuilder → String → Emitted
  | .EBPFBoolType, builder, id => .ok (EBPFBoolType.declare builder id)
  | .EBPFStackType _ elementType size, builder, id =>
      EBPFType.declareArray elementType builder id size
  | .EBPFScalarType _ width isSigned, builder, id =>
      .ok (EBPFScalarType.declare width isSigned builder id)
  | .EBPFTypeName _ canonical, builder, id =>
      match canonical with
      | some c => EBPFType.declare c builder id
      | none => .ok builder
  | .EBPFHeaderType _ _ name, builder, id => .ok (EBPFHeaderType.declare name builder id)
  | .EBPFStructType _ kind name _ _ _, builder, id =>
      .ok (EBPFStructType.declare kind name builder id)
  | .EBPFEnumType type, builder, id => EBPFEnumType.declare type builder id

/-- `declareArray(builder, id, size)` of each class: the `BUG` of the base
class unless the class overrides it. `EBPFTypeName::declareArray` calls the
`declare` of its own object, whose body stands here. -/
def EBPFType.declareArray : EBPFType → CodeBuilder → String → Nat → Emitted
  | .EBPFStructType _ _ name _ _ _, builder, id, size =>
      .ok (EBPFStructType.declareArray name builder id size)
  | .EBPFTypeName _ canonical, builder, id, size =>
      match (match canonical with
              | some c => EBPFType.declare c builder id
              | none => .ok builder) with
      | .error a => .error a
      | .ok b => .ok (b.append ("[" ++ toString size ++ "]"))
  | _, _, _, _ => .error (.bug "unsupported array")

end

mutual

/-- `emitInitializer(builder)` of each class. -/
def EBPFType.emitInitializer : EBPFType → CodeBuilder → Emitted
  | .EBPFBoolType, builder => .ok (builder.append "0")
  | .EBPFStackType _ elementType size, builder =>
      match EBPFStackType.initializerLoop (EBPFType.emitInitializer elementType) size 0
          (builder.append "\x7b") with
      | .error a => .error a
      | .ok b => .ok (b.append " \x7d")
  | .EBPFScalarType _ _ _, builder => .ok (builder.append "0")
  | .EBPFTypeName _ canonical, builder =>
      match canonical with
      | some c => EBPFType.emitInitializer c builder
      | none => .ok builder
  | .EBPFHeaderType _ _ _, builder => .ok (EBPFHeaderType.emitInitializer builder)
  | .EBPFStructType type _ _ fields _ _, builder =>
      match type with
      | .Type_StructLike .Type_Struct _ _ | .Type_StructLike .Type_HeaderUnion _ _ =>
          match EBPFStructType.initializerLoop fields builder.blockStart with
          | .error a => .error a
          | .ok b => .ok (b.blockEnd false)
      | _ => .error (.bug "Unexpected type")
  | .EBPFEnumType _, builder => .ok (builder.append "0")

/-- The loop over `fields` in `EBPFStructType::emitInitializer`. -/
def EBPFStructType.initializerLoop : List (EBPFField EBPFType) → CodeBuilder → Emitted
  | [], builder => .ok builder
  | ⟨_, type, field⟩ :: fs, builder =>
      match type with
      | none => .error .nullDereference
      | some t =>
          match EBPFType.emitInitializer t ((builder.emitIndent).append ("." ++ field.1 ++ " = ")) with
          | .error a => .error a
          | .ok b => EBPFStructType.initializerLoop fs ((b.append ",").newline)

end

mutual

/-- `emit(builder)` of each class; `toString` is `IR::Type::toString`, which is
declared in the IR. -/
def EBPFType.emit (toString : IRType → String) : EBPFType → CodeBuilder → Emitted
  | .EBPFBoolType, builder => .ok (EBPFBoolType.emit builder)
  | .EBPFStackType _ _ _, builder => .ok builder
  | .EBPFScalarType _ width isSigned, builder => .ok (EBPFScalarType.emit width isSigned builder)
  | .EBPFTypeName _ canonical, builder =>
      match canonical with
      | some c => EBPFType.emit toString c builder
      | none => .error .nullDereference
  | .EBPFHeaderType _ width name, builder => .ok (EBPFHeaderType.emit width name builder)
  | .EBPFStructType _ kind name fields _ _, builder =>
      match EBPFStructType.emitLoop toString fields
          ((((((builder.emitIndent).append kind).spc).append name).spc).blockStart) with
      | .error a => .error a
      | .ok b => .ok ((b.blockEnd false).endOfStatement true)
  | .EBPFEnumType type, builder => EBPFEnumType.emit type builder

/-- The loop over `fields` in `EBPFStructType::emit`. -/
def EBPFStructType.emitLoop (toString : IRType → String) :
    List (EBPFField EBPFType) → CodeBuilder → Emitted
  | [], builder => .ok builder
  | ⟨comment, type, field⟩ :: fs, builder =>
      match type with
      | none => .error .nullDereference
      | some t =>
          match EBPFType.declare t builder.emitIndent field.1 with
          | .error a => .error a
          | .ok b =>
              let b := ((b.append "; ").append "/* ").append (toString t.type)
              let b := match comment with
                | some c => (b.append " ").append c
                | none => b
              EBPFStructType.emitLoop toString fs ((b.append " */").newline)

end

/-! ## Quantities that the statements below refer to -/

/-- The width that field `f` of a header adds: `width_bits` of the type the
type map gives for the field. -/
def fieldWidth (typeMap : TypeMap) (width_bits : IRType → Nat) (f : StructField) : Nat :=
  width_bits (typeMap.getType f)

/-- The sum of the widths of the fields of a header that are not varbit. -/
def headerWidthSum (typeMap : TypeMap) (width_bits : IRType → Nat)
    (fields : List StructField) : Nat :=
  ((fields.filter (fun f => !(typeMap.getType f).isVarbits)).map
    (fieldWidth typeMap width_bits)).sum

/-- The diagnostics for the varbit fields of a header, in the order of the
fields. -/
def varbitDiagnostics (typeMap : TypeMap) (fields : List StructField) : List Diagnostic :=
  (fields.filter (fun f => (typeMap.getType f).isVarbits)).map
    (fun f => Diagnostic.varbitNotSupported f.2)

/-- Is the diagnostic the one about a width that is not a whole number of
bytes? -/
def Diagnostic.isNotIntegralBytes : Diagnostic → Bool
  | .notIntegralBytes _ => true
  | _ => false

/-! ## Inputs of the examples -/

/-- A type map for the examples: a field has its declared type; a typedef
resolves to the type it names, the type name `"Byte"` to `bit<8>`, the type
name `"Word"` to the typedef `Byte`, and every other type name to a varbit
type. -/
def exampleTypeMap : TypeMap where
  getType := fun f => f.2
  getTypeType := fun t =>
    match t with
    | .Type_Typedef _ ty => ty
    | .Type_Name path =>
        if path = "Byte" then .Type_Bits 8 false
        else if path = "Word" then IRType.Type_Typedef "Byte" (.Type_Bits 8 false)
        else .Type_Varbits 32
    | _ => t

/-- The method `width_bits` for the examples: the size of a `bit` or `int`
type, one bit for a Boolean, nothing for the rest. -/
def exampleWidthBits : IRType → Nat
  | .Type_Bits size _ => size
  | .Type_Boolean => 1
  | _ => 0

/-! ## Quantities of the scalar and alias claims -/

/-- The native class of a width as the spec words it: the smallest member of
`{8, 16, 32, 64}` that is at least the width, and none for a width above 64. -/
def nativeClassFor (bits : Nat) : Option Nat :=
  [8, 16, 32, 64].find? (fun c => decide (bits ≤ c))

/-- The letter that `EBPFScalarType::emit` puts before the size of the class. -/
def signLetter (isSigned : Bool) : String := if isSigned then "i" else "u"

/-- A chain of named aliases around a representation: one `EBPFTypeName` for
each name, the first name outermost. -/
def aliasChain : List IRType → EBPFType → EBPFType
  | [], r => r
  | t :: ts, r => .EBPFTypeName t (some (aliasChain ts r))

/-- A typedef `T` of a varbit type, for the examples. -/
def varbitTypedef : IRType := IRType.Type_Typedef "T" (.Type_Varbits 32)

/-! ## Quantities of the struct claims -/

/-- The logical width that a field adds to the tally of a struct: the
`widthInBits()` of the representation created for it, and 0 when there is
none. -/
def widthOf (p : Option EBPFType) : Nat :=
  match p with
  | none => 0
  | some wt => wt.widthInBits.1

/-- The implementation width that a field adds to the tally of a struct. -/
def implWidthOf (p : Option EBPFType) : Nat :=
  match p with
  | none => 0
  | some wt => wt.implementationWidthInBits.1

/-- The diagnostics that the constructor of a struct reports on field `f` after
`create` returned `p` for its type: the one about an unsupported type when
there is no representation, and otherwise whatever the two width queries
report. -/
def ownDiagnostics (f : StructField) (p : Option EBPFType) : List Diagnostic :=
  match p with
  | none => [.unsupportedInStruct f.2]
  | some wt => wt.widthInBits.2 ++ wt.implementationWidthInBits.2

/-- Is the diagnostic the one about an unsupported type in a struct? -/
def Diagnostic.isUnsupportedInStruct : Diagnostic → Bool
  | .unsupportedInStruct _ => true
  | _ => false

/-- The entries of `fields` that the constructor of a struct builds from the
fields of the node and the results of `create` on their types. -/
def fieldEntries (fields : List StructField)
    (rs : List (Option EBPFType × List Diagnostic)) : List (EBPFField EBPFType) :=
  List.zipWith (fun f p => ⟨none, p.1, f⟩) fields rs

/-! ## The text of the struct operations, line by line -/

/-- The text of an indentation to `level`. -/
def indentText (level : Nat) : String := String.mk (List.replicate level ' ')

/-- The text that a completed operation leaves in the builder. -/
def textOf (e : Emitted) : Except Abort String :=
  match e with
  | .error a => .error a
  | .ok b => .ok b.buffer

/-- The builder after `text` is added to it, the indentation unchanged. -/
def appendText (b : CodeBuilder) (text : Except Abort String) : Emitted :=
  match text with
  | .error a => .error a
  | .ok s => .ok ⟨b.buffer ++ s, b.indentLevel⟩

/-- The text that `declare(id)` of a representation writes. -/
def declaredText (t : EBPFType) (id : String) : Except Abort String :=
  textOf (t.declare ⟨"", 0⟩ id)

/-- The text that `emitInitializer` of a representation writes at an
indentation. -/
def initializerText (t : EBPFType) (level : Nat) : Except Abort String :=
  textOf (t.emitInitializer ⟨"", level⟩)

/-- The line of a struct definition for one entry of `fields`: the indentation,
the declaration of the field under its name, and the comment with the source
type. There is none when the entry has no representation. -/
def memberLine (toString : IRType → String) (level : Nat) (ef : EBPFField EBPFType) :
    Except Abort String :=
  match ef.type with
  | none => .error .nullDereference
  | some t =>
      match declaredText t ef.field.1 with
      | .error a => .error a
      | .ok d =>
          .ok (indentText level ++ d ++ "; " ++ "/* " ++ toString t.type
            ++ (match ef.comment with
                | some c => " " ++ c
                | none => "")
            ++ " */" ++ "\n")

/-- The line of a struct initializer for one entry of `fields`: the
indentation, the designated name of the field, and the initializer of its
representation. There is none when the entry has no representation. -/
def initializerLine (level : Nat) (ef : EBPFField EBPFType) : Except Abort String :=
  match ef.type with
  | none => .error .nullDereference
  | some t =>
      match initializerText t level with
      | .error a => .error a
      | .ok v => .ok (indentText level ++ ("." ++ ef.field.1 ++ " = ") ++ v ++ "," ++ "\n")

/-- The lines for the entries of a list in order, one line for each entry; the
first entry without a line decides the failure. -/
def linesOf {α : Type} (line : α → Except Abort String) : List α → Except Abort (List String)
  | [] => .ok []
  | x :: xs =>
      match line x with
      | .error a => .error a
      | .ok l =>
          match linesOf line xs with
          | .error a => .error a
          | .ok ls => .ok (l :: ls)

/-- The lines one after the other. -/
def concatLines : List String → String
  | [] => ""
  | l :: ls => l ++ concatLines ls

/-- The builder after the lines are added to it, the indentation unchanged. -/
def appendLines (b : CodeBuilder) (lines : Except Abort (List String)) : Emitted :=
  match lines with
  | .error a => .error a
  | .ok ls => .ok ⟨b.buffer ++ concatLines ls, b.indentLevel⟩

/-- An operation on the builder is framed when all it does is add a text that
depends on the indentation only, leaving the indentation as it was. -/
def Framed (f : CodeBuilder → Emitted) : Prop :=
  ∀ b : CodeBuilder, f b = appendText b (textOf (f ⟨"", b.indentLevel⟩))

/-! ## Quantities of the later claims -/

/-- A representation has a fixed width when its width queries end in a class
that knows its width: a stack has one when its element has one, an alias when
its canonical representation is there, is an `IHasWidth` and has one, and every
other class by itself. -/
def EBPFType.hasFixedWidth : EBPFType → Bool
  | .EBPFBoolType => true
  | .EBPFStackType _ elementType _ => elementType.hasFixedWidth
  | .EBPFScalarType _ _ _ => true
  | .EBPFTypeName _ canonical =>
      match canonical with
      | none => false
      | some wt => wt.isIHasWidth && wt.hasFixedWidth
  | .EBPFHeaderType _ _ _ => true
  | .EBPFStructType _ _ _ _ _ _ => true
  | .EBPFEnumType _ => true

/-- Is the diagnostic the one about a varbit field? -/
def Diagnostic.isVarbitNotSupported : Diagnostic → Bool
  | .varbitNotSupported _ => true
  | _ => false

/-- Has `create` a branch for the class of the node? It has one for Boolean,
`bit`/`int`, struct-like, typedef, type-name, enum and stack nodes. -/
def IRType.hasBranch : IRType → Bool
  | .Type_Boolean => true
  | .Type_Bits _ _ => true
  | .Type_StructLike _ _ _ => true
  | .Type_Typedef _ _ => true
  | .Type_Name _ => true
  | .Type_Enum _ _ => true
  | .Type_Stack _ _ => true
  | _ => false

mutual

/-- The `unsigned` arithmetic behind the widths of a representation does not
overflow: the products of a stack, the byte rounding of a scalar and the sums
over the fields of a struct stay below `2 ^ 32`, also in the representations
nested in it. -/
def EBPFType.noOverflow : EBPFType → Bool
  | .EBPFBoolType => true
  | .EBPFStackType _ elementType size =>
      decide (size * elementType.widthInBits.1 < UINT_RANGE)
        && decide (size * elementType.implementationWidthInBits.1 < UINT_RANGE)
        && elementType.noOverflow
  | .EBPFScalarType _ width _ =>
      decide (EBPFScalarType.bytesRequired width * 8 < UINT_RANGE)
  | .EBPFTypeName _ canonical =>
      match canonical with
      | none => true
      | some c => c.noOverflow
  | .EBPFHeaderType _ _ _ => true
  | .EBPFStructType _ _ _ fields _ _ =>
      decide ((fields.map (fun ef => widthOf ef.type)).sum < UINT_RANGE)
        && decide ((fields.map (fun ef => implWidthOf ef.type)).sum < UINT_RANGE)
        && noOverflowFields fields
  | .EBPFEnumType _ => true

/-- No overflow in the representations of the entries of a struct. -/
def noOverflowFields : List (EBPFField EBPFType) → Bool
  | [] => true
  | ⟨_, none, _⟩ :: fs => noOverflowFields fs
  | ⟨_, some t, _⟩ :: fs => t.noOverflow && noOverflowFields fs

end

/-- The struct `S` of the examples: a field `a : bit<3>` and a field `s` that is
a stack of four `Byte`. -/
def exampleStruct : IRType :=
  .Type_StructLike .Type_Struct "S"
    [("a", .Type_Bits 3 false), ("s", .Type_Stack (.Type_Name "Byte") 4)]

/-- The representation of `exampleStruct`. -/
def exampleStructRepresentation : EBPFType :=
  .EBPFStructType exampleStruct "struct" "S"
    [⟨none, some (.EBPFScalarType (.Type_Bits 3 false) 3 false), ("a", .Type_Bits 3 false)⟩,
     ⟨none, some (.EBPFStackType (.Type_Stack (.Type_Name "Byte") 4)
        (.EBPFTypeName (.Type_Name "Byte") (some (.EBPFScalarType (.Type_Bits 8 false) 8 false)))
        4), ("s", .Type_Stack (.Type_Name "Byte") 4)⟩]
    35 40

/-! ## The identifier in the text of a declaration -/

mutual

/-- Does `declare(id)` of the representation write the identifier? An alias
whose canonical representation is null writes nothing at all; an alias of a
representation, and a stack through `declareArray` of its element, write what
that representation writes; every other class writes the identifier. -/
def EBPFType.declaresIdentifier : EBPFType → Bool
  | .EBPFBoolType => true
  | .EBPFStackType _ elementType _ => elementType.arrayDeclaresIdentifier
  | .EBPFScalarType _ _ _ => true
  | .EBPFTypeName _ canonical =>
      match canonical with
      | none => false
      | some c => c.declaresIdentifier
  | .EBPFHeaderType _ _ _ => true
  | .EBPFStructType _ _ _ _ _ _ => true
  | .EBPFEnumType _ => true

/-- Does `declareArray(id, size)` of the representation write the identifier?
The override of the alias writes what its `declare(id)` writes. -/
def EBPFType.arrayDeclaresIdentifier : EBPFType → Bool
  | .EBPFTypeName _ canonical =>
      match canonical with
      | none => false
      | some c => c.declaresIdentifier
  | _ => true

end

/-- The text of a declaration around an identifier: `pre`, the identifier and
`suf` when the identifier is written, and `pre` alone when it is not. -/
def declarator (named : Bool) (pre suf id : String) : String :=
  if named then pre ++ id ++ suf else pre

/-- The struct `Q` of the examples: a field `v` of the type name `V`, which the
example type map resolves to a varbit type, and a field `a : bit<8>`. -/
def aliasStruct : IRType :=
  .Type_StructLike .Type_Struct "Q" [("v", .Type_Name "V"), ("a", .Type_Bits 8 false)]

/-- The representation of `aliasStruct`: the entry of `v` holds an alias whose
canonical representation is null. -/
def aliasStructRepresentation : EBPFType :=
  .EBPFStructType aliasStruct "struct" "Q"
    [⟨none, some (.EBPFTypeName (.Type_Name "V") none), ("v", .Type_Name "V")⟩,
     ⟨none, some (.EBPFScalarType (.Type_Bits 8 false) 8 false), ("a", .Type_Bits 8 false)⟩]
    8 8

/-! ## Lemmas on the header branch -/

theorem UINT_RANGE_pos : 0 < UINT_RANGE := by decide

theorem mod_UINT_RANGE_mod_eight (n : Nat) : n % UINT_RANGE % 8 = n % 8 := by
  have h : (8 : Nat) ∣ UINT_RANGE := by decide
  exact Nat.mod_mod_of_dvd n h

theorem headerFieldStep_foldl (typeMap : TypeMap) (width_bits : IRType → Nat)
    (fields : List StructField) (w : Nat) (errs : List Diagnostic) (hw : w < UINT_RANGE) :
    fields.foldl (headerFieldStep typeMap width_bits) (w, errs)
      = ((w + headerWidthSum typeMap width_bits fields) % UINT_RANGE,
          errs ++ varbitDiagnostics typeMap fields) := by
  induction fields generalizing w errs with
  | nil => simp [headerWidthSum, varbitDiagnostics, Nat.mod_eq_of_lt hw]
  | cons f fs ih =>
      rw [List.foldl_cons]
      by_cases hv : (typeMap.getType f).isVarbits = true
      · have hstep : headerFieldStep typeMap width_bits (w, errs) f
            = (w, errs ++ [Diagnostic.varbitNotSupported f.2]) := by
          simp [headerFieldStep, hv]
        rw [hstep, ih w _ hw]
        simp [headerWidthSum, varbitDiagnostics, hv]
      · have hv' : (typeMap.getType f).isVarbits = false := by simpa using hv
        have hstep : headerFieldStep typeMap width_bits (w, errs) f
            = ((w + fieldWidth typeMap width_bits f) % UINT_RANGE, errs) := by
          simp [headerFieldStep, hv', fieldWidth]
        rw [hstep, ih _ _ (Nat.mod_lt _ UINT_RANGE_pos)]
        simp [headerWidthSum, varbitDiagnostics, hv', Nat.add_assoc]

theorem createHeader_eq (typeMap : TypeMap) (width_bits : IRType → Nat)
    (th : IRType) (name : String) (fields : List StructField) :
    createHeader typeMap width_bits th name fields
      = (some (.EBPFHeaderType th (headerWidthSum typeMap width_bits fields % UINT_RANGE) name),
          varbitDiagnostics typeMap fields
            ++ (if headerWidthSum typeMap width_bits fields % 8 ≠ 0
                then [Diagnostic.notIntegralBytes th] else [])) := by
  unfold createHeader
  rw [headerFieldStep_foldl typeMap width_bits fields 0 [] UINT_RANGE_pos]
  simp only [Nat.zero_add, List.nil_append, mod_UINT_RANGE_mod_eight]
  split <;> simp

theorem headerWidthSum_of_no_varbit (typeMap : TypeMap) (width_bits : IRType → Nat)
    (fields : List StructField)
    (h : ∀ f ∈ fields, (typeMap.getType f).isVarbits = false) :
    headerWidthSum typeMap width_bits fields
      = (fields.map (fieldWidth typeMap width_bits)).sum := by
  unfold headerWidthSum
  rw [List.filter_eq_self.mpr]
  intro f hf
  simp [h f hf]

theorem varbitDiagnostics_of_no_varbit (typeMap : TypeMap) (fields : List StructField)
    (h : ∀ f ∈ fields, (typeMap.getType f).isVarbits = false) :
    varbitDiagnostics typeMap fields = [] := by
  unfold varbitDiagnostics
  rw [List.filter_eq_nil_iff.mpr]
  · rfl
  · intro f hf
    simp [h f hf]

theorem isIHasWidth_eq_true (r : EBPFType) : r.isIHasWidth = true := by
  cases r <;> rfl

theorem EBPFStackType_new_eq (type : IRType) (e : EBPFType) (n : Nat) :
    EBPFStackType.new type e n = .ok (.EBPFStackType type e n) := by
  simp [EBPFStackType.new, isIHasWidth_eq_true]

theorem create_Type_Header (typeMap : TypeMap) (width_bits : IRType → Nat) (fuel : Nat)
    (name : String) (fields : List StructField) :
    create typeMap width_bits (fuel + 1) (.Type_StructLike .Type_Header name fields)
      = .ok (createHeader typeMap width_bits (.Type_StructLike .Type_Header name fields)
          name fields) := by
  simp [create]

/-! ## Widths of stacks and headers -/

/-- C1: a stack representation with element `e` and size `n` is accepted by the
constructor, its `widthInBits()` is `n * e.widthInBits()` and its
`implementationWidthInBits()` is `n * e.implementationWidthInBits()`, both in
arithmetic modulo `2 ^ 32`; and `create` on a stack of four `bit<8>` yields a
representation whose two widths are 32, with no diagnostic. -/
theorem stack_widths (type : IRType) (e : EBPFType) (n : Nat) :
    EBPFStackType.new type e n = .ok (.EBPFStackType type e n)
    ∧ (EBPFType.EBPFStackType type e n).widthInBits.1
        = (n * e.widthInBits.1) % UINT_RANGE
    ∧ (EBPFType.EBPFStackType type e n).implementationWidthInBits.1
        = (n * e.implementationWidthInBits.1) % UINT_RANGE
    ∧ (∀ (typeMap : TypeMap) (width_bits : IRType → Nat), ∃ r,
        create typeMap width_bits 2 (.Type_Stack (.Type_Bits 8 false) 4) = .ok (some r, [])
        ∧ r.widthInBits = (32, []) ∧ r.implementationWidthInBits = (32, [])) := by
  refine ⟨EBPFStackType_new_eq type e n, ?_, ?_, ?_⟩
  · simp [EBPFType.widthInBits]
  · simp [EBPFType.implementationWidthInBits]
  · intro typeMap width_bits
    exact ⟨_, rfl, rfl, rfl⟩

/-- C2: on a header none of whose fields is varbit and whose field widths sum to
a multiple of 8, `create` reports nothing and returns a header representation
whose `widthInBits()` and `implementationWidthInBits()` are that sum as an
`unsigned` value (the sum modulo `2 ^ 32`, which is the sum itself when it fits
in 32 bits). -/
theorem header_aligned_widths (typeMap : TypeMap) (width_bits : IRType → Nat) (fuel : Nat)
    (name : String) (fields : List StructField)
    (hno : ∀ f ∈ fields, (typeMap.getType f).isVarbits = false)
    (h8 : (fields.map (fieldWidth typeMap width_bits)).sum % 8 = 0) :
    ∃ r, create typeMap width_bits (fuel + 1) (.Type_StructLike .Type_Header name fields)
          = .ok (some r, [])
      ∧ r = .EBPFHeaderType (.Type_StructLike .Type_Header name fields)
          ((fields.map (fieldWidth typeMap width_bits)).sum % UINT_RANGE) name
      ∧ r.widthInBits = ((fields.map (fieldWidth typeMap width_bits)).sum % UINT_RANGE, [])
      ∧ r.implementationWidthInBits
          = ((fields.map (fieldWidth typeMap width_bits)).sum % UINT_RANGE, [])
      ∧ ((fields.map (fieldWidth typeMap width_bits)).sum < UINT_RANGE →
          r.widthInBits.1 = (fields.map (fieldWidth typeMap width_bits)).sum
          ∧ r.implementationWidthInBits.1 = (fields.map (fieldWidth typeMap width_bits)).sum) := by
  refine ⟨_, ?_, rfl, rfl, rfl, ?_⟩
  · rw [create_Type_Header, createHeader_eq, varbitDiagnostics_of_no_varbit _ _ hno,
      headerWidthSum_of_no_varbit _ _ _ hno]
    simp [h8]
  · intro hlt
    simp [EBPFType.widthInBits, EBPFType.implementationWidthInBits, Nat.mod_eq_of_lt hlt]

/-- Witness of C2: a header with two `bit<8>` fields has width 16. -/
theorem header_aligned_widths_witness :
    (∀ f ∈ [("a", IRType.Type_Bits 8 false), ("b", IRType.Type_Bits 8 false)],
        (exampleTypeMap.getType f).isVarbits = false)
    ∧ ([("a", IRType.Type_Bits 8 false), ("b", IRType.Type_Bits 8 false)].map
        (fieldWidth exampleTypeMap exampleWidthBits)).sum % 8 = 0
    ∧ ∃ r, create exampleTypeMap exampleWidthBits 1
          (.Type_StructLike .Type_Header "H"
            [("a", .Type_Bits 8 false), ("b", .Type_Bits 8 false)]) = .ok (some r, [])
        ∧ r.widthInBits = (16, []) ∧ r.implementationWidthInBits = (16, []) := by
  have hno : ∀ f ∈ [("a", IRType.Type_Bits 8 false), ("b", IRType.Type_Bits 8 false)],
      (exampleTypeMap.getType f).isVarbits = false := by
    intro f hf
    simp only [List.mem_cons, List.mem_singleton, List.mem_nil_iff, or_false] at hf
    rcases hf with rfl | rfl <;> rfl
  have h8 : ([("a", IRType.Type_Bits 8 false), ("b", IRType.Type_Bits 8 false)].map
      (fieldWidth exampleTypeMap exampleWidthBits)).sum % 8 = 0 := by decide
  obtain ⟨r, hc, _, hw, hi, _⟩ :=
    header_aligned_widths exampleTypeMap exampleWidthBits 0 "H" _ hno h8
  exact ⟨hno, h8, r, hc, hw, hi⟩

/-- C3: on a header whose field widths (of the fields that are not varbit) sum
to a number that is not a multiple of 8, `create` returns a header
representation all the same, the diagnostics reported are those of the varbit
fields followed by one diagnostic about the width, so exactly one of that kind,
and both widths of the representation are the accumulated sum as an `unsigned`
value, not rounded: it is not a multiple of 8, and it is the sum itself when the
sum fits in 32 bits. -/
theorem header_misaligned_widths (typeMap : TypeMap) (width_bits : IRType → Nat)
    (fuel : Nat) (name : String) (fields : List StructField)
    (h8 : headerWidthSum typeMap width_bits fields % 8 ≠ 0) :
    ∃ r errs, create typeMap width_bits (fuel + 1) (.Type_StructLike .Type_Header name fields)
          = .ok (some r, errs)
      ∧ errs = varbitDiagnostics typeMap fields
          ++ [Diagnostic.notIntegralBytes (.Type_StructLike .Type_Header name fields)]
      ∧ errs.countP Diagnostic.isNotIntegralBytes = 1
      ∧ r = .EBPFHeaderType (.Type_StructLike .Type_Header name fields)
          (headerWidthSum typeMap width_bits fields % UINT_RANGE) name
      ∧ r.widthInBits = (headerWidthSum typeMap width_bits fields % UINT_RANGE, [])
      ∧ r.implementationWidthInBits
          = (headerWidthSum typeMap width_bits fields % UINT_RANGE, [])
      ∧ r.widthInBits.1 % 8 ≠ 0
      ∧ (headerWidthSum typeMap width_bits fields < UINT_RANGE →
          r.widthInBits.1 = headerWidthSum typeMap width_bits fields) := by
  refine ⟨_, _, ?_, rfl, ?_, rfl, rfl, rfl, ?_, ?_⟩
  · rw [create_Type_Header, createHeader_eq]
    simp [h8]
  · rw [List.countP_append]
    have h0 : (varbitDiagnostics typeMap fields).countP Diagnostic.isNotIntegralBytes = 0 := by
      rw [List.countP_eq_zero]
      intro d hd
      simp only [varbitDiagnostics, List.mem_map] at hd
      obtain ⟨f, _, rfl⟩ := hd
      simp [Diagnostic.isNotIntegralBytes]
    rw [h0]
    rfl
  · simpa [EBPFType.widthInBits, mod_UINT_RANGE_mod_eight] using h8
  · intro hlt
    simp [EBPFType.widthInBits, Nat.mod_eq_of_lt hlt]

/-- Witness of C3: a header with a single `bit<3>` field gets the one diagnostic
about its width and reports width 3. -/
theorem header_misaligned_widths_witness :
    headerWidthSum exampleTypeMap exampleWidthBits [("a", IRType.Type_Bits 3 false)] % 8 ≠ 0
    ∧ ∃ r, create exampleTypeMap exampleWidthBits 1
          (.Type_StructLike .Type_Header "H" [("a", .Type_Bits 3 false)])
          = .ok (some r, [Diagnostic.notIntegralBytes
              (.Type_StructLike .Type_Header "H" [("a", .Type_Bits 3 false)])])
        ∧ r.widthInBits = (3, []) ∧ r.implementationWidthInBits = (3, []) := by
  have h8 : headerWidthSum exampleTypeMap exampleWidthBits
      [("a", IRType.Type_Bits 3 false)] % 8 ≠ 0 := by decide
  obtain ⟨r, errs, hc, he, _, _, hw, hi, _, _⟩ :=
    header_misaligned_widths exampleTypeMap exampleWidthBits 0 "H" _ h8
  refine ⟨h8, r, ?_, hw, hi⟩
  rw [hc, he]
  rfl

theorem nativeClassFor_eq (w : Nat) :
    nativeClassFor w = if w ≤ 8 then some 8 else if w ≤ 16 then some 16
      else if w ≤ 32 then some 32 else if w ≤ 64 then some 64 else none := by
  unfold nativeClassFor
  simp only [List.find?_cons, List.find?_nil]
  by_cases h1 : w ≤ 8
  · simp [h1]
  · by_cases h2 : w ≤ 16
    · simp [h1, h2]
    · by_cases h3 : w ≤ 32
      · simp [h1, h2, h3]
      · by_cases h4 : w ≤ 64 <;> simp [h1, h2, h3, h4]

theorem bytesRequired_eq (w : Nat) : EBPFScalarType.bytesRequired w = (w + 7) / 8 := by
  simp [EBPFScalarType.bytesRequired, ROUNDUP]

theorem nativeClassFor_some_iff (w c : Nat) :
    nativeClassFor w = some c ↔
      (c ∈ [8, 16, 32, 64] ∧ w ≤ c ∧ ∀ c' ∈ [8, 16, 32, 64], w ≤ c' → c ≤ c') := by
  rw [nativeClassFor_eq]
  simp only [List.mem_cons, List.mem_singleton, List.mem_nil_iff, or_false, forall_eq_or_imp,
    forall_eq]
  constructor
  · intro h
    split_ifs at h <;> cases h <;> omega
  · rintro ⟨hc, hw, h8, h16, h32, h64⟩
    split_ifs <;> rcases hc with rfl | rfl | rfl | rfl <;> first | rfl | (exfalso; omega)

theorem scalar_emit_eq (w : Nat) (s : Bool) (b : CodeBuilder) :
    EBPFScalarType.emit w s b
      = match nativeClassFor w with
        | some c => ⟨b.buffer ++ (signLetter s ++ toString c), b.indentLevel⟩
        | none => ⟨b.buffer ++ "u8*", b.indentLevel⟩ := by
  rw [nativeClassFor_eq]
  unfold EBPFScalarType.emit signLetter CodeBuilder.append
  split_ifs <;> rfl

/-! ## Scalars -/

/-- C4: `declare(id)` of a scalar of width `w` writes, when `w` has a native
class (the smallest member of `{8, 16, 32, 64}` that is at least `w`, which
exists exactly when `w ≤ 64`), the token of that class (the sign letter and the
size), a space and `id`; otherwise it writes `u8 id[k]` where `k` is
`ceil(w/8)`, the `k` with `w ≤ 8 * k < w + 8`. The token is the one `emit`
writes. -/
theorem scalar_declare (type : IRType) (w : Nat) (s : Bool) (b : CodeBuilder) (id : String)
    (toStr : IRType → String) :
    (EBPFType.EBPFScalarType type w s).declare b id
        = .ok (match nativeClassFor w with
          | some c => ⟨b.buffer ++ (signLetter s ++ toString c) ++ " " ++ id, b.indentLevel⟩
          | none => ⟨b.buffer ++ ("u8 " ++ id ++ "[" ++ toString (EBPFScalarType.bytesRequired w)
                      ++ "]"), b.indentLevel⟩)
    ∧ (EBPFType.EBPFScalarType type w s).emit toStr b
        = .ok (match nativeClassFor w with
          | some c => ⟨b.buffer ++ (signLetter s ++ toString c), b.indentLevel⟩
          | none => ⟨b.buffer ++ "u8*", b.indentLevel⟩)
    ∧ (nativeClassFor w = none ↔ 64 < w)
    ∧ (∀ c, nativeClassFor w = some c ↔
        (c ∈ [8, 16, 32, 64] ∧ w ≤ c ∧ ∀ c' ∈ [8, 16, 32, 64], w ≤ c' → c ≤ c'))
    ∧ w ≤ 8 * EBPFScalarType.bytesRequired w
    ∧ 8 * EBPFScalarType.bytesRequired w < w + 8 := by
  refine ⟨?_, ?_, ?_, nativeClassFor_some_iff w, ?_, ?_⟩
  · simp only [EBPFType.declare, EBPFScalarType.declare, EBPFScalarType.generatesScalar,
      scalar_emit_eq]
    by_cases h : w ≤ 64
    · have hc : ∃ c, nativeClassFor w = some c := by
        rw [nativeClassFor_eq]; split_ifs <;> simp
      obtain ⟨c, hc⟩ := hc
      simp [h, hc, CodeBuilder.spc, CodeBuilder.append]
    · have hc : nativeClassFor w = none := by
        rw [nativeClassFor_eq]; split_ifs <;> first | omega | rfl
      simp [h, hc, CodeBuilder.append]
  · simp only [EBPFType.emit, scalar_emit_eq]
  · rw [nativeClassFor_eq]
    split_ifs <;> simp <;> omega
  · rw [bytesRequired_eq]; omega
  · rw [bytesRequired_eq]; omega

/-- C5 as stated fails: the scalar of width 17 has `implementationWidthInBits()`
24, which is none of 8, 16, 32, 64, while `emit` writes the 32-bit class for
it. -/
theorem scalar_implementation_width_counterexample :
    (17 : Nat) ≤ 64
    ∧ (EBPFType.EBPFScalarType (.Type_Bits 17 false) 17 false).implementationWidthInBits
        = (24, [])
    ∧ ¬ ((EBPFType.EBPFScalarType (.Type_Bits 17 false) 17 false).implementationWidthInBits.1
          ∈ [8, 16, 32, 64])
    ∧ nativeClassFor 17 = some 32
    ∧ (EBPFType.EBPFScalarType (.Type_Bits 17 false) 17 false).emit (fun _ => "") ⟨"", 0⟩
        = .ok ⟨"u32", 0⟩ := by
  refine ⟨by decide, rfl, by decide, rfl, rfl⟩

/-- C5, amended: for a scalar of width `w ≤ 64`, `implementationWidthInBits()`
reports nothing and is `8 * ceil(w/8)`: a multiple of 8 with
`w ≤ it < w + 8`, at most 64 and at most the size of the native class of `w`;
it is one of 8, 16, 32, 64 exactly when `w` lies in 1..16, 25..32 or 57..64. -/
theorem scalar_implementation_width (type : IRType) (w : Nat) (s : Bool) (h : w ≤ 64) :
    (EBPFType.EBPFScalarType type w s).implementationWidthInBits = (8 * ((w + 7) / 8), [])
    ∧ (EBPFType.EBPFScalarType type w s).implementationWidthInBits.1 % 8 = 0
    ∧ w ≤ (EBPFType.EBPFScalarType type w s).implementationWidthInBits.1
    ∧ (EBPFType.EBPFScalarType type w s).implementationWidthInBits.1 < w + 8
    ∧ (EBPFType.EBPFScalarType type w s).implementationWidthInBits.1 ≤ 64
    ∧ (∃ c, nativeClassFor w = some c
        ∧ (EBPFType.EBPFScalarType type w s).implementationWidthInBits.1 ≤ c)
    ∧ ((EBPFType.EBPFScalarType type w s).implementationWidthInBits.1 ∈ [8, 16, 32, 64]
        ↔ (1 ≤ w ∧ w ≤ 16) ∨ (25 ≤ w ∧ w ≤ 32) ∨ (57 ≤ w ∧ w ≤ 64)) := by
  have himpl : (EBPFType.EBPFScalarType type w s).implementationWidthInBits
      = (8 * ((w + 7) / 8), []) := by
    simp only [EBPFType.implementationWidthInBits, bytesRequired_eq, UINT_RANGE]
    congr 1
    omega
  rw [himpl]
  refine ⟨rfl, ?_, ?_, ?_, ?_, ?_, ?_⟩
  · show 8 * ((w + 7) / 8) % 8 = 0
    omega
  · show w ≤ 8 * ((w + 7) / 8)
    omega
  · show 8 * ((w + 7) / 8) < w + 8
    omega
  · show 8 * ((w + 7) / 8) ≤ 64
    omega
  · show ∃ c, nativeClassFor w = some c ∧ 8 * ((w + 7) / 8) ≤ c
    rw [nativeClassFor_eq]
    split_ifs
    · exact ⟨8, rfl, by omega⟩
    · exact ⟨16, rfl, by omega⟩
    · exact ⟨32, rfl, by omega⟩
    · exact ⟨64, rfl, by omega⟩
  · show 8 * ((w + 7) / 8) ∈ [8, 16, 32, 64] ↔ _
    simp only [List.mem_cons, List.mem_singleton, List.mem_nil_iff, or_false]
    omega

/-- Witness of the amended C5 at width 17. -/
theorem scalar_implementation_width_witness :
    (17 : Nat) ≤ 64
    ∧ (EBPFType.EBPFScalarType (.Type_Bits 17 true) 17 true).implementationWidthInBits
        = (8 * ((17 + 7) / 8), []) :=
  ⟨by decide, (scalar_implementation_width (.Type_Bits 17 true) 17 true (by decide)).1⟩

/-- C6 as stated fails: `emit` of a signed scalar of width 8 writes `i8`, not
`s8`. -/
theorem scalar_emit_signed_counterexample :
    (EBPFType.EBPFScalarType (.Type_Bits 8 true) 8 true).emit (fun _ => "") ⟨"", 0⟩
        = .ok ⟨"i8", 0⟩
    ∧ (EBPFType.EBPFScalarType (.Type_Bits 8 true) 8 true).emit (fun _ => "") ⟨"", 0⟩
        ≠ .ok ⟨"s" ++ "8", 0⟩ := by
  refine ⟨rfl, ?_⟩
  intro h
  have h' : (⟨"i8", 0⟩ : CodeBuilder) = ⟨"s" ++ "8", 0⟩ := Except.ok.inj h
  exact absurd h' (by decide)

/-- C6, amended: `emit` of a scalar of width `w ≤ 64` writes the letter `i` when
the scalar is signed and `u` when it is unsigned, followed by the size of the
native class of `w`, one of 8, 16, 32, 64. -/
theorem scalar_emit_token (type : IRType) (w : Nat) (s : Bool) (b : CodeBuilder)
    (toStr : IRType → String) (h : w ≤ 64) :
    ∃ c, nativeClassFor w = some c ∧ c ∈ [8, 16, 32, 64]
      ∧ (EBPFType.EBPFScalarType type w s).emit toStr b
          = .ok ⟨b.buffer ++ ((if s then "i" else "u") ++ toString c), b.indentLevel⟩ := by
  have hc : ∃ c, nativeClassFor w = some c := by
    rw [nativeClassFor_eq]; split_ifs <;> first | omega | simp
  obtain ⟨c, hc⟩ := hc
  refine ⟨c, hc, ((nativeClassFor_some_iff w c).mp hc).1, ?_⟩
  simp only [EBPFType.emit, scalar_emit_eq, hc, signLetter]

/-- Witness of the amended C6: a signed scalar of width 17 is emitted as
`i32`. -/
theorem scalar_emit_token_witness :
    (17 : Nat) ≤ 64
    ∧ ∃ c, nativeClassFor 17 = some c ∧ c ∈ [8, 16, 32, 64]
      ∧ (EBPFType.EBPFScalarType (.Type_Bits 17 true) 17 true).emit (fun _ => "") ⟨"", 0⟩
          = .ok ⟨"" ++ ((if true then "i" else "u") ++ toString c), 0⟩ :=
  ⟨by decide, scalar_emit_token (.Type_Bits 17 true) 17 true ⟨"", 0⟩ (fun _ => "") (by decide)⟩

/-! ## Named aliases -/

theorem aliasChain_ops (names : List IRType) (r : EBPFType) :
    (∀ (b : CodeBuilder) (id : String), (aliasChain names r).declare b id = r.declare b id)
    ∧ (∀ (toStr : IRType → String) (b : CodeBuilder),
        (aliasChain names r).emit toStr b = r.emit toStr b)
    ∧ (∀ b : CodeBuilder, (aliasChain names r).emitInitializer b = r.emitInitializer b)
    ∧ (aliasChain names r).widthInBits = r.widthInBits
    ∧ (aliasChain names r).implementationWidthInBits = r.implementationWidthInBits := by
  induction names with
  | nil => exact ⟨fun _ _ => rfl, fun _ _ => rfl, fun _ => rfl, rfl, rfl⟩
  | cons t ts ih =>
      obtain ⟨hd, he, hi, hw, hiw⟩ := ih
      refine ⟨?_, ?_, ?_, ?_, ?_⟩
      · intro b id
        simp only [aliasChain, EBPFType.declare, hd]
      · intro toStr b
        simp only [aliasChain, EBPFType.emit, he]
      · intro b
        simp only [aliasChain, EBPFType.emitInitializer, hi]
      · simp only [aliasChain, EBPFType.widthInBits, isIHasWidth_eq_true, if_true, hw]
      · simp only [aliasChain, EBPFType.implementationWidthInBits, isIHasWidth_eq_true, if_true,
          hiw]

/-- C7: for a representation `r` and a chain of one or more named aliases
around it, `declare(id)`, `emit` and `emitInitializer` of the outermost alias
give the result that the same operation of `r` gives on the same builder (the
same text, or the same failure), and `widthInBits()` and
`implementationWidthInBits()` give the values and diagnostics of `r`. In
particular `create` on a type name that resolves to a typedef of `bit<8>` yields
an alias of an alias of the scalar, which declares `x` as `u8 x`. -/
theorem alias_chain_delegates (t : IRType) (ts : List IRType) (r : EBPFType) :
    (∀ (b : CodeBuilder) (id : String),
        (aliasChain (t :: ts) r).declare b id = r.declare b id)
    ∧ (∀ (toStr : IRType → String) (b : CodeBuilder),
        (aliasChain (t :: ts) r).emit toStr b = r.emit toStr b)
    ∧ (∀ b : CodeBuilder, (aliasChain (t :: ts) r).emitInitializer b = r.emitInitializer b)
    ∧ (aliasChain (t :: ts) r).widthInBits = r.widthInBits
    ∧ (aliasChain (t :: ts) r).implementationWidthInBits = r.implementationWidthInBits
    ∧ create exampleTypeMap exampleWidthBits 3 (.Type_Name "Word")
        = .ok (some (aliasChain [.Type_Name "Word", .Type_Name "Byte"]
            (.EBPFScalarType (.Type_Bits 8 false) 8 false)), [])
    ∧ (aliasChain [.Type_Name "Word", .Type_Name "Byte"]
          (.EBPFScalarType (.Type_Bits 8 false) 8 false)).declare ⟨"", 0⟩ "x"
        = .ok ⟨"u8 x", 0⟩ := by
  obtain ⟨hd, he, hi, hw, hiw⟩ := aliasChain_ops (t :: ts) r
  exact ⟨hd, he, hi, hw, hiw, rfl, rfl⟩

/-- C8 as stated fails for a type name: the type name `"V"` resolves to a varbit
type, on which `create` returns null, and `create` on the type name returns an
alias representation whose canonical representation is null. -/
theorem named_null_canonical_counterexample :
    create exampleTypeMap exampleWidthBits 1 (exampleTypeMap.getTypeType (.Type_Name "V"))
        = .ok (none, [Diagnostic.typeNotSupported (.Type_Varbits 32)])
    ∧ create exampleTypeMap exampleWidthBits 2 (.Type_Name "V")
        = .ok (some (.EBPFTypeName (.Type_Name "V") none),
            [Diagnostic.typeNotSupported (.Type_Varbits 32)]) := by
  exact ⟨rfl, rfl⟩

/-- C8, amended: when `create` returns null on the canonical type of a typedef
node, `create` on the typedef returns null, with the same diagnostics; when it
returns null on the canonical type of a type-name node, `create` on the type
name returns an alias representation of that type name whose canonical
representation is null, with the same diagnostics. -/
theorem named_null_canonical (typeMap : TypeMap) (width_bits : IRType → Nat) (fuel : Nat)
    (type : IRType) (errs : List Diagnostic)
    (hnull : create typeMap width_bits fuel (typeMap.getTypeType type) = .ok (none, errs)) :
    (∀ name ty, type = .Type_Typedef name ty →
        create typeMap width_bits (fuel + 1) type = .ok (none, errs))
    ∧ (∀ path, type = .Type_Name path →
        create typeMap width_bits (fuel + 1) type
          = .ok (some (.EBPFTypeName (.Type_Name path) none), errs)) := by
  constructor
  · rintro name ty rfl
    simp only [create, hnull]
  · rintro path rfl
    simp only [create, hnull]

/-- Witness of the amended C8: the typedef of a varbit type is lowered to null,
the type name `"V"` to an alias with a null canonical representation. -/
theorem named_null_canonical_witness :
    create exampleTypeMap exampleWidthBits 1
        (exampleTypeMap.getTypeType varbitTypedef)
      = .ok (none, [Diagnostic.typeNotSupported (.Type_Varbits 32)])
    ∧ create exampleTypeMap exampleWidthBits 2 varbitTypedef
      = .ok (none, [Diagnostic.typeNotSupported (.Type_Varbits 32)])
    ∧ create exampleTypeMap exampleWidthBits 2 (.Type_Name "V")
      = .ok (some (.EBPFTypeName (.Type_Name "V") none),
          [Diagnostic.typeNotSupported (.Type_Varbits 32)]) :=
  ⟨rfl,
    (named_null_canonical exampleTypeMap exampleWidthBits 1 varbitTypedef _ rfl).1 _ _ rfl,
    (named_null_canonical exampleTypeMap exampleWidthBits 1 (.Type_Name "V") _ rfl).2 _ rfl⟩

/-! ## Structs and header unions -/

theorem toIHasWidth_eq (p : Option EBPFType) : toIHasWidth p = p := by
  cases p with
  | none => rfl
  | some r => simp [toIHasWidth, isIHasWidth_eq_true]

theorem fieldStep_eq (create : IRType → Created) (st : StructState) (f : StructField)
    (p : Option EBPFType × List Diagnostic) (hc : create f.2 = .ok p)
    (hw : st.width < UINT_RANGE) (hiw : st.implWidth < UINT_RANGE) :
    EBPFStructType.fieldStep create st f
      = .ok { fields := st.fields ++ [⟨none, p.1, f⟩]
              width := (st.width + widthOf p.1) % UINT_RANGE
              implWidth := (st.implWidth + implWidthOf p.1) % UINT_RANGE
              errors := st.errors ++ (p.2 ++ ownDiagnostics f p.1) } := by
  obtain ⟨type, errs⟩ := p
  cases type with
  | none =>
      simp [EBPFStructType.fieldStep, hc, toIHasWidth, widthOf, implWidthOf, ownDiagnostics,
        Nat.mod_eq_of_lt hw, Nat.mod_eq_of_lt hiw]
  | some wt =>
      simp [EBPFStructType.fieldStep, hc, toIHasWidth, isIHasWidth_eq_true, widthOf,
        implWidthOf, ownDiagnostics]

theorem fieldLoop_eq (create : IRType → Created) (fields : List StructField)
    (rs : List (Option EBPFType × List Diagnostic)) (st : StructState)
    (hrs : fields.map (fun f => create f.2) = rs.map Except.ok)
    (hw : st.width < UINT_RANGE) (hiw : st.implWidth < UINT_RANGE) :
    EBPFStructType.fieldLoop create fields st
      = .ok { fields := st.fields ++ fieldEntries fields rs
              width := (st.width + (rs.map (fun p => widthOf p.1)).sum) % UINT_RANGE
              implWidth := (st.implWidth + (rs.map (fun p => implWidthOf p.1)).sum) % UINT_RANGE
              errors := st.errors
                ++ (List.zipWith (fun f p => p.2 ++ ownDiagnostics f p.1) fields rs).flatten } := by
  induction fields generalizing rs st with
  | nil =>
      cases rs with
      | nil =>
          simp [EBPFStructType.fieldLoop, fieldEntries, Nat.mod_eq_of_lt hw,
            Nat.mod_eq_of_lt hiw]
      | cons p ps => simp at hrs
  | cons f fs ih =>
      cases rs with
      | nil => simp at hrs
      | cons p ps =>
          simp only [List.map_cons, List.cons.injEq] at hrs
          obtain ⟨hc, hrest⟩ := hrs
          rw [EBPFStructType.fieldLoop, fieldStep_eq create st f p hc hw hiw]
          simp only
          rw [ih ps _ hrest (Nat.mod_lt _ UINT_RANGE_pos) (Nat.mod_lt _ UINT_RANGE_pos)]
          simp [fieldEntries, Nat.add_assoc, List.append_assoc]

theorem create_struct_eq (typeMap : TypeMap) (width_bits : IRType → Nat) (fuel : Nat)
    (k : StructLikeKind) (name : String) (fields : List StructField)
    (rs : List (Option EBPFType × List Diagnostic))
    (hk : k = .Type_Struct ∨ k = .Type_HeaderUnion)
    (hrs : fields.map (fun f => create typeMap width_bits fuel f.2) = rs.map Except.ok) :
    create typeMap width_bits (fuel + 1) (.Type_StructLike k name fields)
      = .ok (some (.EBPFStructType (.Type_StructLike k name fields)
              (if k = .Type_Struct then "struct" else "union") name
              (fieldEntries fields rs)
              ((rs.map (fun p => widthOf p.1)).sum % UINT_RANGE)
              ((rs.map (fun p => implWidthOf p.1)).sum % UINT_RANGE)),
            (List.zipWith (fun f p => p.2 ++ ownDiagnostics f p.1) fields rs).flatten) := by
  have hloop := fieldLoop_eq (create typeMap width_bits fuel) fields rs ⟨[], 0, 0, []⟩ hrs
    UINT_RANGE_pos UINT_RANGE_pos
  simp only [Nat.zero_add, List.nil_append] at hloop
  rcases hk with rfl | rfl <;>
    simp [create, EBPFStructType.new, EBPFStructType.kindOf, hloop]

theorem widthInBits_not_unsupported :
    ∀ (r : EBPFType) (d : Diagnostic), d ∈ r.widthInBits.2 → d.isUnsupportedInStruct = false
  | .EBPFBoolType, d, h => by simp [EBPFType.widthInBits] at h
  | .EBPFStackType _ e _, d, h => by
      simp only [EBPFType.widthInBits] at h
      exact widthInBits_not_unsupported e d h
  | .EBPFScalarType _ _ _, d, h => by simp [EBPFType.widthInBits] at h
  | .EBPFTypeName _ none, d, h => by
      simp only [EBPFType.widthInBits, List.mem_singleton] at h
      subst h; rfl
  | .EBPFTypeName _ (some c), d, h => by
      simp only [EBPFType.widthInBits, isIHasWidth_eq_true, if_true] at h
      exact widthInBits_not_unsupported c d h
  | .EBPFHeaderType _ _ _, d, h => by simp [EBPFType.widthInBits] at h
  | .EBPFStructType _ _ _ _ _ _, d, h => by simp [EBPFType.widthInBits] at h
  | .EBPFEnumType _, d, h => by simp [EBPFType.widthInBits] at h

theorem implementationWidthInBits_not_unsupported :
    ∀ (r : EBPFType) (d : Diagnostic),
      d ∈ r.implementationWidthInBits.2 → d.isUnsupportedInStruct = false
  | .EBPFBoolType, d, h => by simp [EBPFType.implementationWidthInBits] at h
  | .EBPFStackType _ e _, d, h => by
      simp only [EBPFType.implementationWidthInBits] at h
      exact implementationWidthInBits_not_unsupported e d h
  | .EBPFScalarType _ _ _, d, h => by simp [EBPFType.implementationWidthInBits] at h
  | .EBPFTypeName _ none, d, h => by
      simp only [EBPFType.implementationWidthInBits, List.mem_singleton] at h
      subst h; rfl
  | .EBPFTypeName _ (some c), d, h => by
      simp only [EBPFType.implementationWidthInBits, isIHasWidth_eq_true, if_true] at h
      exact implementationWidthInBits_not_unsupported c d h
  | .EBPFHeaderType _ _ _, d, h => by simp [EBPFType.implementationWidthInBits] at h
  | .EBPFStructType _ _ _ _ _ _, d, h => by simp [EBPFType.implementationWidthInBits] at h
  | .EBPFEnumType _, d, h => by simp [EBPFType.implementationWidthInBits] at h

theorem ownDiagnostics_count (f : StructField) (p : Option EBPFType) :
    (ownDiagnostics f p).countP Diagnostic.isUnsupportedInStruct = if p.isNone then 1 else 0 := by
  cases p with
  | none => rfl
  | some wt =>
      simp only [ownDiagnostics, Option.isNone_some, Bool.false_eq_true, if_false]
      rw [List.countP_eq_zero]
      intro d hd
      rcases List.mem_append.mp hd with h | h
      · simp [widthInBits_not_unsupported wt d h]
      · simp [implementationWidthInBits_not_unsupported wt d h]

theorem ownDiagnostics_count_zip (fields : List StructField)
    (rs : List (Option EBPFType × List Diagnostic)) (hlen : fields.length = rs.length) :
    (List.zipWith (fun f p => ownDiagnostics f p.1) fields rs).flatten.countP
        Diagnostic.isUnsupportedInStruct
      = (rs.filter (fun p => p.1.isNone)).length := by
  induction fields generalizing rs with
  | nil => cases rs <;> simp_all
  | cons f fs ih =>
      cases rs with
      | nil => simp at hlen
      | cons p ps =>
          simp only [List.length_cons, Nat.add_right_cancel_iff] at hlen
          simp only [List.zipWith_cons_cons, List.flatten_cons, List.countP_append,
            ownDiagnostics_count, ih ps hlen, List.filter_cons]
          cases h : p.1.isNone <;> simp [h]
          omega

/-- C10: on a struct or header-union node, when `create` completes on the type
of every field with the results `rs`, `create` on the node returns a struct
representation whose `widthInBits()` is the sum of the `widthInBits()` of the
representations created for the fields and whose `implementationWidthInBits()`
is the sum of their `implementationWidthInBits()`, both modulo `2 ^ 32`; a field
for which no representation was created adds 0 to both sums and gets exactly one
diagnostic from the constructor (the one about an unsupported type), so the
number of these diagnostics is the number of such fields. The kind of the node
plays no part in the widths. -/
theorem struct_widths (typeMap : TypeMap) (width_bits : IRType → Nat) (fuel : Nat)
    (k : StructLikeKind) (name : String) (fields : List StructField)
    (rs : List (Option EBPFType × List Diagnostic))
    (hk : k = .Type_Struct ∨ k = .Type_HeaderUnion)
    (hrs : fields.map (fun f => create typeMap width_bits fuel f.2) = rs.map Except.ok) :
    ∃ r errs, create typeMap width_bits (fuel + 1) (.Type_StructLike k name fields)
          = .ok (some r, errs)
      ∧ r.widthInBits = ((rs.map (fun p => widthOf p.1)).sum % UINT_RANGE, [])
      ∧ r.implementationWidthInBits = ((rs.map (fun p => implWidthOf p.1)).sum % UINT_RANGE, [])
      ∧ errs = (List.zipWith (fun f p => p.2 ++ ownDiagnostics f p.1) fields rs).flatten
      ∧ (∀ f, widthOf none = 0 ∧ implWidthOf none = 0
          ∧ ownDiagnostics f none = [Diagnostic.unsupportedInStruct f.2])
      ∧ (∀ p : Option EBPFType, toIHasWidth p = none ↔ p = none)
      ∧ (List.zipWith (fun f p => ownDiagnostics f p.1) fields rs).flatten.countP
            Diagnostic.isUnsupportedInStruct
          = (rs.filter (fun p => p.1.isNone)).length := by
  refine ⟨_, _, create_struct_eq typeMap width_bits fuel k name fields rs hk hrs,
    rfl, rfl, rfl, fun f => ⟨rfl, rfl, rfl⟩, fun p => by rw [toIHasWidth_eq], ?_⟩
  apply ownDiagnostics_count_zip
  have := congrArg List.length hrs
  simpa using this

/-- Witness of C10: a header union of `bit<8>`, `bit<12>` and a varbit type has
logical width 20 (not 12, the maximum) and implementation width 24; the varbit
member adds nothing and gets one diagnostic from `create` and one from the
constructor. -/
theorem struct_widths_witness :
    (StructLikeKind.Type_HeaderUnion = .Type_Struct
        ∨ StructLikeKind.Type_HeaderUnion = .Type_HeaderUnion)
    ∧ [("a", IRType.Type_Bits 8 false), ("b", .Type_Bits 12 false), ("c", .Type_Varbits 32)].map
          (fun f => create exampleTypeMap exampleWidthBits 1 f.2)
        = [(some (.EBPFScalarType (.Type_Bits 8 false) 8 false), []),
           (some (.EBPFScalarType (.Type_Bits 12 false) 12 false), []),
           (none, [Diagnostic.typeNotSupported (.Type_Varbits 32)])].map Except.ok
    ∧ ∃ r, create exampleTypeMap exampleWidthBits 2
          (.Type_StructLike .Type_HeaderUnion "U"
            [("a", .Type_Bits 8 false), ("b", .Type_Bits 12 false), ("c", .Type_Varbits 32)])
          = .ok (some r, [Diagnostic.typeNotSupported (.Type_Varbits 32),
                          Diagnostic.unsupportedInStruct (.Type_Varbits 32)])
        ∧ r.widthInBits = (20, []) ∧ r.implementationWidthInBits = (24, []) := by
  obtain ⟨r, errs, hc, hw, hi, he, _⟩ :=
    struct_widths exampleTypeMap exampleWidthBits 1 .Type_HeaderUnion "U"
      [("a", .Type_Bits 8 false), ("b", .Type_Bits 12 false), ("c", .Type_Varbits 32)]
      [(some (.EBPFScalarType (.Type_Bits 8 false) 8 false), []),
       (some (.EBPFScalarType (.Type_Bits 12 false) 12 false), []),
       (none, [Diagnostic.typeNotSupported (.Type_Varbits 32)])]
      (Or.inr rfl) rfl
  refine ⟨Or.inr rfl, rfl, r, ?_, ?_, ?_⟩
  · rw [hc, he]; rfl
  · rw [hw]; rfl
  · rw [hi]; rfl

/-! ## The text written by `declare` and `emitInitializer` -/

mutual

theorem declare_appends :
    ∀ (r : EBPFType) (b : CodeBuilder) (id : String),
      r.declare b id = appendText b (declaredText r id)
  | .EBPFBoolType, b, id => by
      simp [EBPFType.declare, declaredText, textOf, appendText, EBPFBoolType.declare,
        EBPFBoolType.emit, CodeBuilder.append, String.append_assoc]
  | .EBPFStackType _ e n, b, id => by
      have h := declareArray_appends e b id n
      simpa [EBPFType.declare, declaredText] using h
  | .EBPFScalarType _ w s, b, id => by
      simp only [EBPFType.declare, declaredText, textOf, appendText, EBPFScalarType.declare,
        scalar_emit_eq, CodeBuilder.spc, CodeBuilder.append]
      split
      · split <;> simp [String.append_assoc]
      · simp
  | .EBPFTypeName _ none, b, id => by
      simp [EBPFType.declare, declaredText, textOf, appendText]
  | .EBPFTypeName _ (some c), b, id => by
      have h := declare_appends c b id
      simpa [EBPFType.declare, declaredText] using h
  | .EBPFHeaderType _ _ name, b, id => by
      simp [EBPFType.declare, declaredText, textOf, appendText, EBPFHeaderType.declare,
        CodeBuilder.append]
  | .EBPFStructType _ kind name _ _ _, b, id => by
      simp [EBPFType.declare, declaredText, textOf, appendText, EBPFStructType.declare,
        CodeBuilder.append, String.append_assoc]
  | .EBPFEnumType type, b, id => by
      simp only [EBPFType.declare, declaredText, EBPFEnumType.declare]
      cases EBPFEnumType.getType type <;>
        simp [textOf, appendText, CodeBuilder.append, String.append_assoc]

theorem declareArray_appends :
    ∀ (r : EBPFType) (b : CodeBuilder) (id : String) (n : Nat),
      r.declareArray b id n = appendText b (textOf (r.declareArray ⟨"", 0⟩ id n))
  | .EBPFBoolType, b, id, n => by simp [EBPFType.declareArray, textOf, appendText]
  | .EBPFStackType _ _ _, b, id, n => by simp [EBPFType.declareArray, textOf, appendText]
  | .EBPFScalarType _ _ _, b, id, n => by simp [EBPFType.declareArray, textOf, appendText]
  | .EBPFTypeName _ none, b, id, n => by
      simp [EBPFType.declareArray, textOf, appendText, CodeBuilder.append]
  | .EBPFTypeName _ (some c), b, id, n => by
      have h := declare_appends c b id
      have h0 := declare_appends c ⟨"", 0⟩ id
      simp only [EBPFType.declareArray]
      rw [h]
      cases hd : declaredText c id with
      | error a =>
          have : c.declare ⟨"", 0⟩ id = .error a := by rw [h0, hd]; rfl
          simp [appendText, textOf, this]
      | ok s =>
          have : c.declare ⟨"", 0⟩ id = .ok ⟨s, 0⟩ := by rw [h0, hd]; simp [appendText]
          simp [appendText, textOf, this, CodeBuilder.append, String.append_assoc]
  | .EBPFHeaderType _ _ _, b, id, n => by simp [EBPFType.declareArray, textOf, appendText]
  | .EBPFStructType _ _ name _ _ _, b, id, n => by
      simp [EBPFType.declareArray, textOf, appendText, EBPFStructType.declareArray,
        CodeBuilder.append]
  | .EBPFEnumType _, b, id, n => by simp [EBPFType.declareArray, textOf, appendText]

end

theorem textOf_appendText_empty (level : Nat) (text : Except Abort String) :
    textOf (appendText ⟨"", level⟩ text) = text := by
  cases text <;> simp [appendText, textOf]

theorem framed_of_text (f : CodeBuilder → Emitted) (text : Nat → Except Abort String)
    (h : ∀ b, f b = appendText b (text b.indentLevel)) : Framed f := by
  intro b
  rw [h ⟨"", b.indentLevel⟩, textOf_appendText_empty, h b]

theorem framed_bind (f g : CodeBuilder → Emitted) (hf : Framed f) (hg : Framed g) :
    Framed (fun b => match f b with
      | .error a => .error a
      | .ok b' => g b') := by
  apply framed_of_text _ (fun level =>
    match textOf (f ⟨"", level⟩) with
    | .error a => .error a
    | .ok s =>
        match textOf (g ⟨"", level⟩) with
        | .error a => .error a
        | .ok t => .ok (s ++ t))
  intro b
  rw [hf b]
  cases textOf (f ⟨"", b.indentLevel⟩) with
  | error a => rfl
  | ok s =>
      simp only [appendText]
      rw [hg ⟨b.buffer ++ s, b.indentLevel⟩]
      cases textOf (g ⟨"", b.indentLevel⟩) with
      | error a => rfl
      | ok t => simp [appendText, String.append_assoc]

theorem framed_append (s : String) : Framed (fun b => .ok (b.append s)) :=
  framed_of_text _ (fun _ => .ok s) (fun _ => rfl)

theorem framed_append_if (c : Prop) [Decidable c] (s : String) :
    Framed (fun b => .ok (if c then b.append s else b)) := by
  apply framed_of_text _ (fun _ => .ok (if c then s else ""))
  intro b
  by_cases h : c <;> simp [h, appendText, CodeBuilder.append]

theorem initializerLoop_stack_framed (emitElement : CodeBuilder → Emitted)
    (h : Framed emitElement) :
    ∀ (remaining i : Nat), Framed (EBPFStackType.initializerLoop emitElement remaining i)
  | 0, i => framed_of_text _ (fun _ => .ok "") (fun b => by
      simp [EBPFStackType.initializerLoop, appendText])
  | remaining + 1, i => by
      have ih := initializerLoop_stack_framed emitElement h remaining (i + 1)
      have h1 := framed_bind _ _ (framed_append_if (i > 0) ", ") h
      have h2 := framed_bind _ _ h1 ih
      intro b
      have := h2 b
      simp only [EBPFStackType.initializerLoop] at this ⊢
      exact this

theorem headerInitializer_framed : Framed (fun b => .ok (EBPFHeaderType.emitInitializer b)) := by
  apply framed_of_text _ (fun level => .ok (EBPFHeaderType.emitInitializer ⟨"", level⟩).buffer)
  intro b
  simp [appendText, EBPFHeaderType.emitInitializer, CodeBuilder.blockStart, CodeBuilder.blockEnd,
    CodeBuilder.emitIndent, CodeBuilder.appendLine, CodeBuilder.newline, CodeBuilder.append,
    String.append_assoc]

theorem structInitializer_of_lines (b : CodeBuilder) (lines : Except Abort (List String)) :
    (match appendLines b.blockStart lines with
      | .error a => .error a
      | .ok b' => .ok (b'.blockEnd false))
      = appendText b (match lines with
          | .error a => .error a
          | .ok ls => .ok ("\x7b" ++ "\n" ++ concatLines ls ++ indentText b.indentLevel ++ "\x7d")) := by
  cases lines with
  | error a => rfl
  | ok ls =>
      simp [appendLines, appendText, CodeBuilder.blockStart, CodeBuilder.blockEnd,
        CodeBuilder.emitIndent, CodeBuilder.newline, CodeBuilder.append, indentText,
        String.append_assoc]

mutual

theorem emitInitializer_framed : ∀ r : EBPFType, Framed r.emitInitializer
  | .EBPFBoolType => fun b => by
      simpa [EBPFType.emitInitializer] using framed_append "0" b
  | .EBPFStackType _ e n => fun b => by
      have he := emitInitializer_framed e
      have h := framed_bind _ _ (framed_bind _ _ (framed_append "\x7b")
        (initializerLoop_stack_framed _ he n 0)) (framed_append " \x7d") b
      simpa [EBPFType.emitInitializer] using h
  | .EBPFScalarType _ _ _ => fun b => by
      simpa [EBPFType.emitInitializer] using framed_append "0" b
  | .EBPFTypeName _ none => fun b => by
      simp [EBPFType.emitInitializer, appendText, textOf]
  | .EBPFTypeName _ (some c) => fun b => by
      simpa [EBPFType.emitInitializer] using emitInitializer_framed c b
  | .EBPFHeaderType _ _ _ => fun b => by
      simpa [EBPFType.emitInitializer] using headerInitializer_framed b
  | .EBPFStructType type _ _ fs _ _ => fun b => by
      have hl := initializerLoop_lines fs
      have h1 := structInitializer_of_lines b (linesOf (initializerLine (b.indentLevel + indentAmount)) fs)
      have h2 := structInitializer_of_lines ⟨"", b.indentLevel⟩
        (linesOf (initializerLine (b.indentLevel + indentAmount)) fs)
      have e1 : (b.blockStart).indentLevel = b.indentLevel + indentAmount := rfl
      have e2 : (CodeBuilder.blockStart ⟨"", b.indentLevel⟩).indentLevel
          = b.indentLevel + indentAmount := rfl
      rcases type with _ | _ | _ | ⟨k, _, _⟩ | _ | _ | _ | _ | _
      case Type_StructLike =>
        cases k <;>
          simp only [EBPFType.emitInitializer, hl, e1, e2, h1, h2, textOf_appendText_empty] <;>
          simp [appendText, textOf]
      all_goals simp [EBPFType.emitInitializer, appendText, textOf]
  | .EBPFEnumType _ => fun b => by
      simpa [EBPFType.emitInitializer] using framed_append "0" b

theorem initializerLoop_lines :
    ∀ (fs : List (EBPFField EBPFType)) (b : CodeBuilder),
      EBPFStructType.initializerLoop fs b
        = appendLines b (linesOf (initializerLine b.indentLevel) fs)
  | [], b => by simp [EBPFStructType.initializerLoop, linesOf, appendLines, concatLines]
  | ⟨_, none, _⟩ :: fs, b => by
      simp [EBPFStructType.initializerLoop, linesOf, initializerLine, appendLines]
  | ⟨_, some t, f⟩ :: fs, b => by
      have ht := emitInitializer_framed t ((b.emitIndent).append ("." ++ f.1 ++ " = "))
      have ih := initializerLoop_lines fs
      have hlevel : ((b.emitIndent).append ("." ++ f.1 ++ " = ")).indentLevel = b.indentLevel := rfl
      rw [hlevel] at ht
      simp only [EBPFStructType.initializerLoop, linesOf, initializerLine, initializerText, ht]
      cases textOf (t.emitInitializer ⟨"", b.indentLevel⟩) with
      | error a => rfl
      | ok v =>
          simp only [appendText, ih, CodeBuilder.newline, CodeBuilder.append,
            CodeBuilder.emitIndent]
          cases linesOf (initializerLine b.indentLevel) fs with
          | error a => rfl
          | ok ls =>
              simp [appendLines, concatLines, CodeBuilder.newline, CodeBuilder.append,
                CodeBuilder.emitIndent, indentText, String.append_assoc]

end

theorem emitLoop_lines (toStr : IRType → String) :
    ∀ (fs : List (EBPFField EBPFType)) (b : CodeBuilder),
      EBPFStructType.emitLoop toStr fs b
        = appendLines b (linesOf (memberLine toStr b.indentLevel) fs)
  | [], b => by simp [EBPFStructType.emitLoop, linesOf, appendLines, concatLines]
  | ⟨_, none, _⟩ :: fs, b => by
      simp [EBPFStructType.emitLoop, linesOf, memberLine, appendLines]
  | ⟨comment, some t, f⟩ :: fs, b => by
      have ih := emitLoop_lines toStr fs
      simp only [EBPFStructType.emitLoop, linesOf, memberLine, declare_appends t b.emitIndent f.1]
      cases declaredText t f.1 with
      | error a => rfl
      | ok d =>
          simp only [appendText, ih, CodeBuilder.newline, CodeBuilder.append,
            CodeBuilder.emitIndent]
          cases comment with
          | none =>
              simp only []
              cases linesOf (memberLine toStr b.indentLevel) fs with
              | error a => rfl
              | ok ls =>
                  simp [appendLines, concatLines, indentText, String.append_assoc]
          | some c =>
              simp only []
              cases linesOf (memberLine toStr b.indentLevel) fs with
              | error a => rfl
              | ok ls =>
                  simp [appendLines, concatLines, indentText, String.append_assoc]

theorem struct_emit_text (toStr : IRType → String) (type : IRType) (kind name : String)
    (fs : List (EBPFField EBPFType)) (w iw : Nat) (b : CodeBuilder) :
    (EBPFType.EBPFStructType type kind name fs w iw).emit toStr b
      = appendText b (match linesOf (memberLine toStr (b.indentLevel + indentAmount)) fs with
          | .error a => .error a
          | .ok ls => .ok (indentText b.indentLevel ++ kind ++ " " ++ name ++ " " ++ "\x7b" ++ "\n"
              ++ concatLines ls ++ indentText b.indentLevel ++ "\x7d" ++ ";" ++ "\n")) := by
  simp only [EBPFType.emit, emitLoop_lines, CodeBuilder.blockStart, CodeBuilder.spc,
    CodeBuilder.newline, CodeBuilder.append, CodeBuilder.emitIndent]
  cases linesOf (memberLine toStr (b.indentLevel + indentAmount)) fs with
  | error a => rfl
  | ok ls =>
      simp [appendLines, appendText, CodeBuilder.blockEnd, CodeBuilder.endOfStatement,
        CodeBuilder.emitIndent, CodeBuilder.newline, CodeBuilder.append, indentText,
        String.append_assoc]

theorem struct_initializer_text (k : StructLikeKind) (n0 : String) (f0 : List StructField)
    (hk : k = .Type_Struct ∨ k = .Type_HeaderUnion) (kind name : String)
    (fs : List (EBPFField EBPFType)) (w iw : Nat) (b : CodeBuilder) :
    (EBPFType.EBPFStructType (.Type_StructLike k n0 f0) kind name fs w iw).emitInitializer b
      = appendText b (match linesOf (initializerLine (b.indentLevel + indentAmount)) fs with
          | .error a => .error a
          | .ok ls => .ok ("\x7b" ++ "\n" ++ concatLines ls ++ indentText b.indentLevel ++ "\x7d")) := by
  have e1 : (b.blockStart).indentLevel = b.indentLevel + indentAmount := rfl
  rcases hk with rfl | rfl <;>
    simp only [EBPFType.emitInitializer, initializerLoop_lines, e1, structInitializer_of_lines]

theorem linesOf_length {α : Type} (line : α → Except Abort String) :
    ∀ (xs : List α) (ls : List String), linesOf line xs = .ok ls → ls.length = xs.length
  | [], ls, h => by
      simp only [linesOf, Except.ok.injEq] at h
      subst h; rfl
  | x :: xs, ls, h => by
      simp only [linesOf] at h
      cases hx : line x with
      | error a => simp [hx] at h
      | ok l =>
          cases hxs : linesOf line xs with
          | error a => simp [hx, hxs] at h
          | ok ls' =>
              simp only [hx, hxs, Except.ok.injEq] at h
              subst h
              simp [linesOf_length line xs ls' hxs]

theorem fieldEntries_field (fields : List StructField)
    (rs : List (Option EBPFType × List Diagnostic)) (hlen : fields.length = rs.length) :
    (fieldEntries fields rs).map (fun ef => ef.field) = fields
    ∧ (fieldEntries fields rs).map (fun ef => ef.type) = rs.map (fun p => p.1) := by
  induction fields generalizing rs with
  | nil => cases rs <;> simp_all [fieldEntries]
  | cons f fs ih =>
      cases rs with
      | nil => simp at hlen
      | cons p ps =>
          simp only [List.length_cons, Nat.add_right_cancel_iff] at hlen
          have := ih ps hlen
          simp only [fieldEntries] at this
          simp [fieldEntries, this.1, this.2]

mutual

theorem declare_shape :
    ∀ t : EBPFType,
      (∃ a, ∀ id, declaredText t id = .error a)
      ∨ ∃ pre suf, ∀ id, declaredText t id = .ok (declarator t.declaresIdentifier pre suf id)
  | .EBPFBoolType => Or.inr ⟨"u8 ", "", fun id => by
      have e : ("u8 " : String) = "u8" ++ " " := rfl
      simp only [declaredText, textOf, EBPFType.declare, EBPFBoolType.declare, EBPFBoolType.emit,
        CodeBuilder.append, declarator, EBPFType.declaresIdentifier, if_true,
        String.empty_append, String.append_empty]
      rw [e, String.append_assoc]⟩
  | .EBPFStackType _ e n => by
      rcases declareArray_shape e n with ⟨a, h⟩ | ⟨pre, suf, h⟩
      · exact Or.inl ⟨a, fun id => by
          simpa [declaredText, EBPFType.declare] using h id⟩
      · exact Or.inr ⟨pre, suf, fun id => by
          simpa [declaredText, EBPFType.declare, EBPFType.declaresIdentifier] using h id⟩
  | .EBPFScalarType _ w s => by
      by_cases hg : EBPFScalarType.generatesScalar w = true
      · exact Or.inr ⟨(EBPFScalarType.emit w s ⟨"", 0⟩).buffer ++ " ", "", fun id => by
          simp [declaredText, textOf, EBPFType.declare, EBPFScalarType.declare, hg,
            CodeBuilder.spc, CodeBuilder.append, declarator, EBPFType.declaresIdentifier,
            String.append_assoc]⟩
      · exact Or.inr ⟨"u8 ", "[" ++ toString (EBPFScalarType.bytesRequired w) ++ "]",
          fun id => by
            simp [declaredText, textOf, EBPFType.declare, EBPFScalarType.declare, hg,
              CodeBuilder.append, declarator, EBPFType.declaresIdentifier,
              String.append_assoc]⟩
  | .EBPFTypeName _ none => Or.inr ⟨"", "", fun id => by
      simp [declaredText, textOf, EBPFType.declare, declarator, EBPFType.declaresIdentifier]⟩
  | .EBPFTypeName _ (some c) => by
      rcases declare_shape c with ⟨a, h⟩ | ⟨pre, suf, h⟩
      · exact Or.inl ⟨a, fun id => by
          simpa [declaredText, EBPFType.declare] using h id⟩
      · exact Or.inr ⟨pre, suf, fun id => by
          simpa [declaredText, EBPFType.declare, EBPFType.declaresIdentifier] using h id⟩
  | .EBPFHeaderType _ _ name => Or.inr ⟨"struct " ++ name ++ " ", "", fun id => by
      simp [declaredText, textOf, EBPFType.declare, EBPFHeaderType.declare,
        CodeBuilder.append, declarator, EBPFType.declaresIdentifier, String.append_assoc]⟩
  | .EBPFStructType _ kind name _ _ _ => Or.inr ⟨kind ++ (" " ++ name ++ " "), "", fun id => by
      simp [declaredText, textOf, EBPFType.declare, EBPFStructType.declare,
        CodeBuilder.append, declarator, EBPFType.declaresIdentifier, String.append_assoc]⟩
  | .EBPFEnumType type => by
      cases hg : EBPFEnumType.getType type with
      | none =>
          exact Or.inl ⟨.nullDereference, fun id => by
            simp [declaredText, textOf, EBPFType.declare, EBPFEnumType.declare, hg]⟩
      | some et =>
          exact Or.inr ⟨"enum " ++ et.1 ++ " ", "", fun id => by
            simp [declaredText, textOf, EBPFType.declare, EBPFEnumType.declare, hg,
              CodeBuilder.append, declarator, EBPFType.declaresIdentifier,
              String.append_assoc]⟩

theorem declareArray_shape :
    ∀ (t : EBPFType) (n : Nat),
      (∃ a, ∀ id, textOf (t.declareArray ⟨"", 0⟩ id n) = .error a)
      ∨ ∃ pre suf, ∀ id, textOf (t.declareArray ⟨"", 0⟩ id n)
          = .ok (declarator t.arrayDeclaresIdentifier pre suf id)
  | .EBPFBoolType, n => Or.inl ⟨.bug "unsupported array", fun id => by
      simp [EBPFType.declareArray, textOf]⟩
  | .EBPFStackType _ _ _, n => Or.inl ⟨.bug "unsupported array", fun id => by
      simp [EBPFType.declareArray, textOf]⟩
  | .EBPFScalarType _ _ _, n => Or.inl ⟨.bug "unsupported array", fun id => by
      simp [EBPFType.declareArray, textOf]⟩
  | .EBPFTypeName _ none, n => Or.inr ⟨"[" ++ toString n ++ "]", "", fun id => by
      simp [EBPFType.declareArray, textOf, CodeBuilder.append, declarator,
        EBPFType.arrayDeclaresIdentifier]⟩
  | .EBPFTypeName _ (some c), n => by
      have hd : ∀ id, c.declare ⟨"", 0⟩ id = appendText ⟨"", 0⟩ (declaredText c id) :=
        fun id => declare_appends c ⟨"", 0⟩ id
      rcases declare_shape c with ⟨a, h⟩ | ⟨pre, suf, h⟩
      · exact Or.inl ⟨a, fun id => by
          simp [EBPFType.declareArray, hd, h id, appendText, textOf]⟩
      · by_cases hn : c.declaresIdentifier = true
        · exact Or.inr ⟨pre, suf ++ ("[" ++ toString n ++ "]"), fun id => by
            simp [EBPFType.declareArray, hd, h id, appendText, textOf, CodeBuilder.append,
              declarator, EBPFType.arrayDeclaresIdentifier, hn, String.append_assoc]⟩
        · exact Or.inr ⟨pre ++ ("[" ++ toString n ++ "]"), "", fun id => by
            simp [EBPFType.declareArray, hd, h id, appendText, textOf, CodeBuilder.append,
              declarator, EBPFType.arrayDeclaresIdentifier, hn]⟩
  | .EBPFHeaderType _ _ _, n => Or.inl ⟨.bug "unsupported array", fun id => by
      simp [EBPFType.declareArray, textOf]⟩
  | .EBPFStructType _ _ name _ _ _, n =>
      Or.inr ⟨name ++ " ", "[" ++ toString n ++ "]", fun id => by
        simp [EBPFType.declareArray, textOf, EBPFStructType.declareArray, CodeBuilder.append,
          declarator, EBPFType.arrayDeclaresIdentifier, String.append_assoc]⟩
  | .EBPFEnumType _, n => Or.inl ⟨.bug "unsupported array", fun id => by
      simp [EBPFType.declareArray, textOf]⟩

end

theorem linesOf_forall₂ {α : Type} (line : α → Except Abort String) (P : α → String → Prop) :
    ∀ (xs : List α) (ls : List String), (∀ x ∈ xs, ∀ l, line x = .ok l → P x l) →
      linesOf line xs = .ok ls → List.Forall₂ P xs ls
  | [], ls, _, h => by
      simp only [linesOf, Except.ok.injEq] at h
      subst h
      exact List.Forall₂.nil
  | x :: xs, ls, hP, h => by
      simp only [linesOf] at h
      cases hx : line x with
      | error a => simp [hx] at h
      | ok l =>
          cases hxs : linesOf line xs with
          | error a => simp [hx, hxs] at h
          | ok ls' =>
              simp only [hx, hxs, Except.ok.injEq] at h
              subst h
              exact List.Forall₂.cons (hP x (List.mem_cons_self _ _) l hx)
                (linesOf_forall₂ line P xs ls'
                  (fun y hy => hP y (List.mem_cons_of_mem _ hy)) hxs)

theorem fieldEntries_comment (fields : List StructField)
    (rs : List (Option EBPFType × List Diagnostic)) :
    ∀ ef ∈ fieldEntries fields rs, ef.comment = none := by
  intro ef hef
  simp only [fieldEntries, List.mem_iff_get, List.get_eq_getElem, List.getElem_zipWith] at hef
  obtain ⟨i, rfl⟩ := hef
  rfl

theorem memberLine_names (toStr : IRType → String) (level : Nat) (ef : EBPFField EBPFType)
    (hcomment : ef.comment = none) (line : String)
    (h : memberLine toStr level ef = .ok line) :
    ∃ c pre suf, ef.type = some c
      ∧ (∀ id, declaredText c id = .ok (declarator c.declaresIdentifier pre suf id))
      ∧ line = indentText level ++ declarator c.declaresIdentifier pre suf ef.field.1 ++ "; "
          ++ "/* " ++ toStr c.type ++ " */" ++ "\n" := by
  simp only [memberLine, hcomment] at h
  cases hty : ef.type with
  | none => simp [hty] at h
  | some c =>
      simp only [hty] at h
      rcases declare_shape c with ⟨a, ha⟩ | ⟨pre, suf, hs⟩
      · simp [ha] at h
      · refine ⟨c, pre, suf, rfl, hs, ?_⟩
        simp only [hs, Except.ok.injEq] at h
        rw [← h]
        simp [String.append_assoc]

theorem initializerLine_names (level : Nat) (ef : EBPFField EBPFType) (line : String)
    (h : initializerLine level ef = .ok line) :
    ∃ c v, ef.type = some c ∧ initializerText c level = .ok v
      ∧ line = indentText level ++ ("." ++ ef.field.1 ++ " = ") ++ v ++ "," ++ "\n" := by
  simp only [initializerLine] at h
  cases hty : ef.type with
  | none => simp [hty] at h
  | some c =>
      simp only [hty] at h
      cases hv : initializerText c level with
      | error a => simp [hv] at h
      | ok v =>
          simp only [hv, Except.ok.injEq] at h
          exact ⟨c, v, rfl, hv, h.symm⟩

/-- C9 as stated fails: in the struct `Q` the field `v` has the type name `V`,
which resolves to a varbit type, so its representation is an alias with a null
canonical representation, whose `declare` writes nothing. `emit` completes and
its member line for `v` carries no name, so it declares `a` only, while
`emitInitializer` completes and designates `.v` and `.a`. -/
theorem struct_field_order_counterexample :
    create exampleTypeMap exampleWidthBits 3 aliasStruct
        = .ok (some aliasStructRepresentation,
            [Diagnostic.typeNotSupported (.Type_Varbits 32),
             Diagnostic.noFixedWidth (.Type_Name "V"),
             Diagnostic.noFixedWidth (.Type_Name "V")])
    ∧ aliasStructRepresentation.emit (fun _ => "T") ⟨"", 0⟩
        = .ok ⟨"struct Q \x7b\n    ; /* T */\n    u8 a; /* T */\n\x7d;\n", 0⟩
    ∧ aliasStructRepresentation.emitInitializer ⟨"", 0⟩
        = .ok ⟨"\x7b\n    .v = ,\n    .a = 0,\n\x7d", 0⟩
    ∧ (∀ id : String, declaredText (.EBPFTypeName (.Type_Name "V") none) id = .ok "")
    ∧ ¬ (∃ pre suf : String,
          declaredText (.EBPFTypeName (.Type_Name "V") none) "v" = .ok (pre ++ "v" ++ suf)) := by
  refine ⟨rfl, rfl, rfl, fun _ => rfl, ?_⟩
  rintro ⟨pre, suf, h⟩
  have h' : ("" : String) = pre ++ "v" ++ suf := Except.ok.inj h
  have hl := congrArg String.length h'
  simp only [String.length_append] at hl
  have h1 : ("v" : String).length = 1 := rfl
  have h0 : ("" : String).length = 0 := rfl
  omega

/-- C9, amended: on a struct or header-union node, when `create` completes on
the type of every field with the results `rs`, the representation returned holds
one entry for each field of the node, in the order of the node, with the field
and the representation created for it (none when the type was not lowered).
`emit` writes the head of the definition, one member line for each entry in that
order and the closing brace, and `emitInitializer` writes an opening brace, one
line for each entry in the same order and the closing brace; either fails when
an entry has no line. When the lines exist, the line of `emitInitializer` for an
entry is `.name = value,` with the name of the field of the entry, and the
member line of `emit` for an entry is the declaration that `declare` of its
representation writes, followed by the comment: that declaration is
`pre name suf` with the name of the field, for texts `pre`, `suf` that do not
depend on the identifier, when the representation writes its identifier, and a
text without the name when it does not (an alias whose canonical representation
is null, alone, behind aliases or as the element of a stack). There are as many
lines as the node has fields. -/
theorem struct_field_order (typeMap : TypeMap) (width_bits : IRType → Nat) (fuel : Nat)
    (k : StructLikeKind) (name : String) (fields : List StructField)
    (rs : List (Option EBPFType × List Diagnostic))
    (hk : k = .Type_Struct ∨ k = .Type_HeaderUnion)
    (hrs : fields.map (fun f => create typeMap width_bits fuel f.2) = rs.map Except.ok) :
    ∃ r errs kind w iw,
      create typeMap width_bits (fuel + 1) (.Type_StructLike k name fields) = .ok (some r, errs)
      ∧ r = .EBPFStructType (.Type_StructLike k name fields) kind name
          (fieldEntries fields rs) w iw
      ∧ (fieldEntries fields rs).map (fun ef => ef.field) = fields
      ∧ (fieldEntries fields rs).map (fun ef => ef.type) = rs.map (fun p => p.1)
      ∧ (∀ (toStr : IRType → String) (b : CodeBuilder),
          r.emit toStr b
            = appendText b
                (match linesOf (memberLine toStr (b.indentLevel + indentAmount))
                    (fieldEntries fields rs) with
                | .error a => .error a
                | .ok ls =>
                    .ok (indentText b.indentLevel ++ kind ++ " " ++ name ++ " " ++ "\x7b" ++ "\n"
                      ++ concatLines ls ++ indentText b.indentLevel ++ "\x7d" ++ ";" ++ "\n")))
      ∧ (∀ b : CodeBuilder,
          r.emitInitializer b
            = appendText b
                (match linesOf (initializerLine (b.indentLevel + indentAmount))
                    (fieldEntries fields rs) with
                | .error a => .error a
                | .ok ls =>
                    .ok ("\x7b" ++ "\n" ++ concatLines ls ++ indentText b.indentLevel ++ "\x7d")))
      ∧ (∀ (toStr : IRType → String) (level : Nat) (ls : List String),
          linesOf (memberLine toStr level) (fieldEntries fields rs) = .ok ls →
            List.Forall₂
              (fun ef line => ∃ c pre suf, ef.type = some c
                ∧ (∀ id, declaredText c id = .ok (declarator c.declaresIdentifier pre suf id))
                ∧ line = indentText level ++ declarator c.declaresIdentifier pre suf ef.field.1
                    ++ "; " ++ "/* " ++ toStr c.type ++ " */" ++ "\n")
              (fieldEntries fields rs) ls)
      ∧ (∀ (level : Nat) (ls : List String),
          linesOf (initializerLine level) (fieldEntries fields rs) = .ok ls →
            List.Forall₂
              (fun ef line => ∃ c v, ef.type = some c ∧ initializerText c level = .ok v
                ∧ line = indentText level ++ ("." ++ ef.field.1 ++ " = ") ++ v ++ "," ++ "\n")
              (fieldEntries fields rs) ls)
      ∧ (∀ (toStr : IRType → String) (level : Nat) (ls : List String),
          linesOf (memberLine toStr level) (fieldEntries fields rs) = .ok ls →
            ls.length = fields.length)
      ∧ (∀ (level : Nat) (ls : List String),
          linesOf (initializerLine level) (fieldEntries fields rs) = .ok ls →
            ls.length = fields.length) := by
  have hlen : fields.length = rs.length := by
    have := congrArg List.length hrs
    simpa using this
  have hent := fieldEntries_field fields rs hlen
  have hcount : (fieldEntries fields rs).length = fields.length := by
    have := congrArg List.length hent.1
    simpa using this
  refine ⟨_, _, _, _, _, create_struct_eq typeMap width_bits fuel k name fields rs hk hrs, rfl,
    hent.1, hent.2, ?_, ?_, ?_, ?_, ?_, ?_⟩
  · intro toStr b
    exact struct_emit_text toStr _ _ _ _ _ _ b
  · intro b
    exact struct_initializer_text k name fields hk _ _ _ _ _ b
  · intro toStr level ls h
    exact linesOf_forall₂ _ _ _ ls
      (fun ef hef line hl =>
        memberLine_names toStr level ef (fieldEntries_comment fields rs ef hef) line hl) h
  · intro level ls h
    exact linesOf_forall₂ _ _ _ ls
      (fun ef _ line hl => initializerLine_names level ef line hl) h
  · intro toStr level ls h
    rw [linesOf_length _ _ _ h, hcount]
  · intro level ls h
    rw [linesOf_length _ _ _ h, hcount]

/-- Witness of the amended C9: the definition of the struct `S` with fields
`a : bit<8>` and `b : bit<16>` has the members `a`, `b` and its initializer has
`.a`, `.b`, in this order. -/
theorem struct_field_order_witness :
    (StructLikeKind.Type_Struct = .Type_Struct ∨ StructLikeKind.Type_Struct = .Type_HeaderUnion)
    ∧ [("a", IRType.Type_Bits 8 false), ("b", .Type_Bits 16 false)].map
          (fun f => create exampleTypeMap exampleWidthBits 1 f.2)
        = [(some (.EBPFScalarType (.Type_Bits 8 false) 8 false), []),
           (some (.EBPFScalarType (.Type_Bits 16 false) 16 false), [])].map Except.ok
    ∧ (∃ r, create exampleTypeMap exampleWidthBits 2
          (.Type_StructLike .Type_Struct "S"
            [("a", .Type_Bits 8 false), ("b", .Type_Bits 16 false)]) = .ok (some r, [])
        ∧ r.emit (fun _ => "T") ⟨"", 0⟩
            = .ok ⟨"struct S \x7b\n    u8 a; /* T */\n    u16 b; /* T */\n\x7d;\n", 0⟩
        ∧ r.emitInitializer ⟨"", 0⟩ = .ok ⟨"\x7b\n    .a = 0,\n    .b = 0,\n\x7d", 0⟩) := by
  obtain ⟨r, errs, kind, w, iw, hc, hr, _⟩ :=
    struct_field_order exampleTypeMap exampleWidthBits 1 .Type_Struct "S"
      [("a", .Type_Bits 8 false), ("b", .Type_Bits 16 false)]
      [(some (.EBPFScalarType (.Type_Bits 8 false) 8 false), []),
       (some (.EBPFScalarType (.Type_Bits 16 false) 16 false), [])]
      (Or.inl rfl) rfl
  have h2 : create exampleTypeMap exampleWidthBits 2
      (.Type_StructLike .Type_Struct "S"
        [("a", .Type_Bits 8 false), ("b", .Type_Bits 16 false)])
      = .ok (some (.EBPFStructType (.Type_StructLike .Type_Struct "S"
          [("a", .Type_Bits 8 false), ("b", .Type_Bits 16 false)]) "struct" "S"
          [⟨none, some (.EBPFScalarType (.Type_Bits 8 false) 8 false), ("a", .Type_Bits 8 false)⟩,
           ⟨none, some (.EBPFScalarType (.Type_Bits 16 false) 16 false),
             ("b", .Type_Bits 16 false)⟩] 24 24), []) := rfl
  rw [hc] at h2
  simp only [Except.ok.injEq, Prod.mk.injEq, Option.some.injEq] at h2
  obtain ⟨h2r, h2e⟩ := h2
  rw [h2e] at hc
  refine ⟨Or.inl rfl, rfl, r, hc, ?_, ?_⟩
  · rw [h2r]; rfl
  · rw [h2r]; rfl

/-! ## Emission on a struct with a field that was not lowered -/

/-- C11 fails on the code: on the struct `P` with a varbit field `v` and a field
`a : bit<8>`, `create` reports the unsupported type, returns a struct
representation whose entry for `v` holds no representation, and both `emit` and
`emitInitializer` on it end in the dereference of that null pointer instead of
running to completion. -/
theorem struct_emission_null_field :
    create exampleTypeMap exampleWidthBits 2
        (.Type_StructLike .Type_Struct "P"
          [("v", .Type_Varbits 32), ("a", .Type_Bits 8 false)])
      = .ok (some (.EBPFStructType
            (.Type_StructLike .Type_Struct "P"
              [("v", .Type_Varbits 32), ("a", .Type_Bits 8 false)]) "struct" "P"
            [⟨none, none, ("v", .Type_Varbits 32)⟩,
             ⟨none, some (.EBPFScalarType (.Type_Bits 8 false) 8 false),
               ("a", .Type_Bits 8 false)⟩] 8 8),
          [Diagnostic.typeNotSupported (.Type_Varbits 32),
           Diagnostic.unsupportedInStruct (.Type_Varbits 32)])
    ∧ (EBPFType.EBPFStructType
          (.Type_StructLike .Type_Struct "P"
            [("v", .Type_Varbits 32), ("a", .Type_Bits 8 false)]) "struct" "P"
          [⟨none, none, ("v", .Type_Varbits 32)⟩,
           ⟨none, some (.EBPFScalarType (.Type_Bits 8 false) 8 false),
             ("a", .Type_Bits 8 false)⟩] 8 8).emit (fun _ => "T") ⟨"", 0⟩
        = .error .nullDereference
    ∧ (EBPFType.EBPFStructType
          (.Type_StructLike .Type_Struct "P"
            [("v", .Type_Varbits 32), ("a", .Type_Bits 8 false)]) "struct" "P"
          [⟨none, none, ("v", .Type_Varbits 32)⟩,
           ⟨none, some (.EBPFScalarType (.Type_Bits 8 false) 8 false),
             ("a", .Type_Bits 8 false)⟩] 8 8).emitInitializer ⟨"", 0⟩
        = .error .nullDereference := by
  exact ⟨rfl, rfl, rfl⟩

/-! ## Stacks: initializer and declaration -/

theorem intercalate_go_append (p acc s : String) (l : List String) :
    String.intercalate.go (p ++ acc) s l = p ++ String.intercalate.go acc s l := by
  induction l generalizing acc with
  | nil => rfl
  | cons a as ih =>
      simp only [String.intercalate.go]
      rw [String.append_assoc, String.append_assoc, ih, String.append_assoc]

theorem initializerLoop_stack_go (emitElement : CodeBuilder → Emitted)
    (text : Nat → Except Abort String)
    (h : ∀ b, emitElement b = appendText b (text b.indentLevel)) :
    ∀ (remaining i : Nat) (b : CodeBuilder) (v : String), 0 < i → text b.indentLevel = .ok v →
      EBPFStackType.initializerLoop emitElement remaining i b
        = .ok ⟨String.intercalate.go b.buffer ", " (List.replicate remaining v), b.indentLevel⟩
  | 0, i, b, v, _, _ => rfl
  | remaining + 1, i, b, v, hi, hv => by
      have ih := initializerLoop_stack_go emitElement text h remaining (i + 1)
        ⟨b.buffer ++ ", " ++ v, b.indentLevel⟩ v (Nat.succ_pos i) hv
      have hb : (b.append ", ").indentLevel = b.indentLevel := rfl
      simp only [EBPFStackType.initializerLoop, hi, if_true, h, hb, hv, appendText]
      rw [show (b.append ", ").buffer = b.buffer ++ ", " from rfl, ih]
      rfl

theorem stack_initializer_text (type : IRType) (e : EBPFType) (n : Nat) (b : CodeBuilder) :
    (EBPFType.EBPFStackType type e n).emitInitializer b
      = (match n with
        | 0 => .ok ⟨b.buffer ++ "\x7b" ++ " \x7d", b.indentLevel⟩
        | _ + 1 =>
            appendText b (match initializerText e b.indentLevel with
              | .error a => .error a
              | .ok v => .ok ("\x7b" ++ String.intercalate ", " (List.replicate n v) ++ " \x7d"))) := by
  have hE : ∀ b', e.emitInitializer b' = appendText b' (initializerText e b'.indentLevel) :=
    fun b' => emitInitializer_framed e b'
  cases n with
  | zero => simp [EBPFType.emitInitializer, EBPFStackType.initializerLoop, CodeBuilder.append]
  | succ m =>
      have hb : (b.append "\x7b").indentLevel = b.indentLevel := rfl
      simp only [EBPFType.emitInitializer, EBPFStackType.initializerLoop, Nat.lt_irrefl, if_false,
        hE, hb]
      cases hv : initializerText e b.indentLevel with
      | error a => rfl
      | ok v =>
          have hloop := initializerLoop_stack_go e.emitInitializer (initializerText e) hE m (0 + 1)
            ⟨b.buffer ++ "\x7b" ++ v, b.indentLevel⟩ v Nat.one_pos hv
          simp only [appendText, CodeBuilder.append, hloop]
          rw [List.replicate_succ]
          show _ = Except.ok ⟨b.buffer ++ ("\x7b" ++ String.intercalate.go v ", "
            (List.replicate m v) ++ " \x7d"), b.indentLevel⟩
          rw [intercalate_go_append]
          simp [String.append_assoc]

/-- C12: `emitInitializer` of a stack with element `e` and size `n` writes, for
`n = 0`, the brace pair `{ }` with nothing in it, whatever `e` is; and for
`n ≥ 1` it writes `{`, then `n` copies of the text that `emitInitializer` of `e`
writes (at the same indentation) with `, ` between consecutive copies, so `n - 1`
separators, then ` }`, and fails as `emitInitializer` of `e` fails. A stack of
three `bit<8>` is initialized with `{0, 0, 0 }`. -/
theorem stack_initializer (type : IRType) (e : EBPFType) (n : Nat) (b : CodeBuilder) :
    (EBPFType.EBPFStackType type e n).emitInitializer b
      = (match n with
        | 0 => .ok ⟨b.buffer ++ "\x7b" ++ " \x7d", b.indentLevel⟩
        | _ + 1 =>
            appendText b (match initializerText e b.indentLevel with
              | .error a => .error a
              | .ok v => .ok ("\x7b" ++ String.intercalate ", " (List.replicate n v) ++ " \x7d")))
    ∧ (∀ v : String,
        "\x7b" ++ String.intercalate ", " (List.replicate 0 v) ++ " \x7d" = "\x7b \x7d")
    ∧ (∀ v : String, (List.replicate n v).length = n
        ∧ ∀ x ∈ List.replicate n v, x = v)
    ∧ (EBPFType.EBPFStackType (.Type_Stack (.Type_Bits 8 false) 3)
          (.EBPFScalarType (.Type_Bits 8 false) 8 false) 3).emitInitializer ⟨"", 0⟩
        = .ok ⟨"\x7b0, 0, 0 \x7d", 0⟩ :=
  ⟨stack_initializer_text type e n b, fun _ => rfl,
    fun _ => ⟨List.length_replicate _ _, fun _ hx => List.eq_of_mem_replicate hx⟩, rfl⟩

/-- C13: `declare(id)` of a stack with element `e` and size `n` is
`e.declareArray(id, n)`. For a struct or union element named `N` this writes
`N id[n]`; for an alias element it writes what `declare(id)` of the alias writes
and then `[n]` (and fails as that `declare` fails); for a Boolean, scalar,
header, enum or stack element it is the `BUG` of the base class, and nothing is
written. -/
theorem stack_declare (type : IRType) (n : Nat) (b : CodeBuilder) (id : String) :
    (∀ e : EBPFType, (EBPFType.EBPFStackType type e n).declare b id = e.declareArray b id n)
    ∧ (∀ (t : IRType) (kind N : String) (fs : List (EBPFField EBPFType)) (w iw : Nat),
        (EBPFType.EBPFStackType type (.EBPFStructType t kind N fs w iw) n).declare b id
          = .ok ⟨b.buffer ++ (N ++ " " ++ id ++ "[" ++ toString n ++ "]"), b.indentLevel⟩)
    ∧ (∀ (t : IRType) (canonical : Option EBPFType),
        (EBPFType.EBPFStackType type (.EBPFTypeName t canonical) n).declare b id
          = match (EBPFType.EBPFTypeName t canonical).declare b id with
            | .error a => .error a
            | .ok b' => .ok ⟨b'.buffer ++ ("[" ++ toString n ++ "]"), b'.indentLevel⟩)
    ∧ (EBPFType.EBPFStackType type .EBPFBoolType n).declare b id
        = .error (.bug "unsupported array")
    ∧ (∀ (t : IRType) (w : Nat) (s : Bool),
        (EBPFType.EBPFStackType type (.EBPFScalarType t w s) n).declare b id
          = .error (.bug "unsupported array"))
    ∧ (∀ (t : IRType) (w : Nat) (name : String),
        (EBPFType.EBPFStackType type (.EBPFHeaderType t w name) n).declare b id
          = .error (.bug "unsupported array"))
    ∧ (∀ t : IRType,
        (EBPFType.EBPFStackType type (.EBPFEnumType t) n).declare b id
          = .error (.bug "unsupported array"))
    ∧ (∀ (t : IRType) (e : EBPFType) (m : Nat),
        (EBPFType.EBPFStackType type (.EBPFStackType t e m) n).declare b id
          = .error (.bug "unsupported array")) := by
  refine ⟨fun e => ?_, fun t kind N fs w iw => ?_, fun t canonical => ?_, ?_, fun t w s => ?_,
    fun t w name => ?_, fun t => ?_, fun t e m => ?_⟩
  · simp only [EBPFType.declare]
  · simp only [EBPFType.declare, EBPFType.declareArray, EBPFStructType.declareArray,
      CodeBuilder.append]
  · cases canonical <;>
      simp only [EBPFType.declare, EBPFType.declareArray, CodeBuilder.append]
  all_goals simp only [EBPFType.declare, EBPFType.declareArray]

/-! ## Widths of aliases -/

theorem widths_of_hasFixedWidth :
    ∀ r : EBPFType,
      (r.hasFixedWidth = true →
        r.widthInBits.2 = [] ∧ r.implementationWidthInBits.2 = [])
      ∧ (r.hasFixedWidth = false →
        r.widthInBits.1 = 0 ∧ r.widthInBits.2.length = 1
        ∧ r.implementationWidthInBits.1 = 0 ∧ r.implementationWidthInBits.2.length = 1)
  | .EBPFBoolType => by simp [EBPFType.hasFixedWidth, EBPFType.widthInBits,
      EBPFType.implementationWidthInBits]
  | .EBPFStackType _ e n => by
      have ih := widths_of_hasFixedWidth e
      simp only [EBPFType.hasFixedWidth, EBPFType.widthInBits,
        EBPFType.implementationWidthInBits]
      refine ⟨fun h => ih.1 h, fun h => ?_⟩
      obtain ⟨h1, h2, h3, h4⟩ := ih.2 h
      simp [h1, h2, h3, h4]
  | .EBPFScalarType _ _ _ => by simp [EBPFType.hasFixedWidth, EBPFType.widthInBits,
      EBPFType.implementationWidthInBits]
  | .EBPFTypeName _ none => by simp [EBPFType.hasFixedWidth, EBPFType.widthInBits,
      EBPFType.implementationWidthInBits]
  | .EBPFTypeName _ (some c) => by
      have ih := widths_of_hasFixedWidth c
      simpa [EBPFType.hasFixedWidth, EBPFType.widthInBits, EBPFType.implementationWidthInBits,
        isIHasWidth_eq_true] using ih
  | .EBPFHeaderType _ _ _ => by simp [EBPFType.hasFixedWidth, EBPFType.widthInBits,
      EBPFType.implementationWidthInBits]
  | .EBPFStructType _ _ _ _ _ _ => by simp [EBPFType.hasFixedWidth, EBPFType.widthInBits,
      EBPFType.implementationWidthInBits]
  | .EBPFEnumType _ => by simp [EBPFType.hasFixedWidth, EBPFType.widthInBits,
      EBPFType.implementationWidthInBits]

/-- C14: for an alias representation whose canonical representation is null or
is no `IHasWidth`, `widthInBits()` and `implementationWidthInBits()` each report
the one diagnostic about the alias and return 0; when the canonical
representation is there, each query returns what the same query of the canonical
representation returns and reports nothing beyond what that query reports. So
when the canonical representation has a fixed width no diagnostic is reported,
and when it has none (an alias of a null canonical is reached through aliases
and stacks) each query reports exactly one diagnostic and returns 0: the alias
`A` of the alias `B` of null has width 0 with the one diagnostic about `B`, and
the alias `A` of a `bit<8>` has width 8 with no diagnostic. -/
theorem alias_widths (type : IRType) (canonical : Option EBPFType) :
    (toIHasWidth canonical = none →
        (EBPFType.EBPFTypeName type canonical).widthInBits
          = (0, [Diagnostic.noFixedWidth type])
        ∧ (EBPFType.EBPFTypeName type canonical).implementationWidthInBits
          = (0, [Diagnostic.noFixedWidth type]))
    ∧ (toIHasWidth canonical = none ↔ canonical = none)
    ∧ (∀ wt, canonical = some wt →
        (EBPFType.EBPFTypeName type canonical).widthInBits = wt.widthInBits
        ∧ (EBPFType.EBPFTypeName type canonical).implementationWidthInBits
          = wt.implementationWidthInBits)
    ∧ (∀ wt, canonical = some wt → wt.hasFixedWidth = true →
        (EBPFType.EBPFTypeName type canonical).widthInBits.2 = []
        ∧ (EBPFType.EBPFTypeName type canonical).implementationWidthInBits.2 = [])
    ∧ (∀ wt, canonical = some wt → wt.hasFixedWidth = false →
        (EBPFType.EBPFTypeName type canonical).widthInBits.1 = 0
        ∧ (EBPFType.EBPFTypeName type canonical).widthInBits.2.length = 1
        ∧ (EBPFType.EBPFTypeName type canonical).implementationWidthInBits.1 = 0
        ∧ (EBPFType.EBPFTypeName type canonical).implementationWidthInBits.2.length = 1)
    ∧ (EBPFType.EBPFTypeName (.Type_Name "A")
          (some (.EBPFTypeName (.Type_Name "B") none))).widthInBits
        = (0, [Diagnostic.noFixedWidth (.Type_Name "B")])
    ∧ (EBPFType.EBPFTypeName (.Type_Name "A")
          (some (.EBPFScalarType (.Type_Bits 8 false) 8 false))).widthInBits = (8, []) := by
  have hdel : ∀ wt, canonical = some wt →
      (EBPFType.EBPFTypeName type canonical).widthInBits = wt.widthInBits
      ∧ (EBPFType.EBPFTypeName type canonical).implementationWidthInBits
        = wt.implementationWidthInBits := by
    rintro wt rfl
    simp [EBPFType.widthInBits, EBPFType.implementationWidthInBits, isIHasWidth_eq_true]
  refine ⟨?_, by rw [toIHasWidth_eq], hdel, ?_, ?_, rfl, rfl⟩
  · intro h
    rw [toIHasWidth_eq] at h
    subst h
    exact ⟨rfl, rfl⟩
  · intro wt hc hf
    rw [(hdel wt hc).1, (hdel wt hc).2]
    exact (widths_of_hasFixedWidth wt).1 hf
  · intro wt hc hf
    rw [(hdel wt hc).1, (hdel wt hc).2]
    exact (widths_of_hasFixedWidth wt).2 hf

/-! ## The header branch with varbit fields, and the branches of `create` -/

theorem varbitDiagnostics_count (typeMap : TypeMap) (fields : List StructField) :
    (varbitDiagnostics typeMap fields).countP Diagnostic.isVarbitNotSupported
      = (fields.filter (fun f => (typeMap.getType f).isVarbits)).length := by
  unfold varbitDiagnostics
  rw [List.countP_map, List.countP_eq_length.mpr]
  · intro f _
    rfl

theorem varbitDiagnostics_filter (typeMap : TypeMap) (fields : List StructField)
    (rest : List Diagnostic) (hrest : ∀ d ∈ rest, d.isVarbitNotSupported = false) :
    (varbitDiagnostics typeMap fields ++ rest).filter Diagnostic.isVarbitNotSupported
      = varbitDiagnostics typeMap fields := by
  rw [List.filter_append, List.filter_eq_self.mpr, List.filter_eq_nil_iff.mpr, List.append_nil]
  · intro d hd
    simp [hrest d hd]
  · intro d hd
    simp only [varbitDiagnostics, List.mem_map] at hd
    obtain ⟨f, _, rfl⟩ := hd
    rfl

/-- C15: on a header, `create` reports one diagnostic about varbit for each
field whose type is varbit, in the order of the fields and naming the declared
type of the field, and no other diagnostic of that kind; the width of the header
representation returned is the sum of the widths of the fields that are not
varbit, as an `unsigned` value, so the varbit fields add nothing to it. -/
theorem header_varbit_fields (typeMap : TypeMap) (width_bits : IRType → Nat) (fuel : Nat)
    (name : String) (fields : List StructField) :
    ∃ r errs, create typeMap width_bits (fuel + 1) (.Type_StructLike .Type_Header name fields)
          = .ok (some r, errs)
      ∧ errs.filter Diagnostic.isVarbitNotSupported
          = (fields.filter (fun f => (typeMap.getType f).isVarbits)).map
              (fun f => Diagnostic.varbitNotSupported f.2)
      ∧ errs.countP Diagnostic.isVarbitNotSupported
          = (fields.filter (fun f => (typeMap.getType f).isVarbits)).length
      ∧ r.widthInBits
          = (((fields.filter (fun f => !(typeMap.getType f).isVarbits)).map
                (fieldWidth typeMap width_bits)).sum % UINT_RANGE, [])
      ∧ r.implementationWidthInBits
          = (((fields.filter (fun f => !(typeMap.getType f).isVarbits)).map
                (fieldWidth typeMap width_bits)).sum % UINT_RANGE, [])
      ∧ (((fields.filter (fun f => !(typeMap.getType f).isVarbits)).map
                (fieldWidth typeMap width_bits)).sum < UINT_RANGE →
          r.widthInBits.1 = ((fields.filter (fun f => !(typeMap.getType f).isVarbits)).map
                (fieldWidth typeMap width_bits)).sum) := by
  have hrest : ∀ d ∈ (if headerWidthSum typeMap width_bits fields % 8 ≠ 0
      then [Diagnostic.notIntegralBytes (.Type_StructLike .Type_Header name fields)] else []),
      d.isVarbitNotSupported = false := by
    intro d hd
    split at hd
    · simp only [List.mem_singleton] at hd
      subst hd; rfl
    · simp at hd
  refine ⟨.EBPFHeaderType (.Type_StructLike .Type_Header name fields)
      (headerWidthSum typeMap width_bits fields % UINT_RANGE) name, _,
    by rw [create_Type_Header, createHeader_eq], ?_, ?_, rfl, rfl, ?_⟩
  · exact varbitDiagnostics_filter typeMap fields _ hrest
  · rw [List.countP_eq_length_filter, varbitDiagnostics_filter typeMap fields _ hrest]
    simp [varbitDiagnostics]
  · intro hlt
    show headerWidthSum typeMap width_bits fields % UINT_RANGE = _
    exact Nat.mod_eq_of_lt hlt

/-- Witness of C15: a header with a varbit field between a `bit<8>` and a
`bit<16>` field gets the one diagnostic about varbit and has width 24. -/
theorem header_varbit_fields_witness :
    ∃ r, create exampleTypeMap exampleWidthBits 1
          (.Type_StructLike .Type_Header "H"
            [("a", .Type_Bits 8 false), ("v", .Type_Varbits 32), ("b", .Type_Bits 16 false)])
          = .ok (some r, [Diagnostic.varbitNotSupported (.Type_Varbits 32)])
      ∧ r.widthInBits = (24, []) ∧ r.implementationWidthInBits = (24, []) := by
  obtain ⟨r, errs, hc, _, _, hw, hi, _⟩ :=
    header_varbit_fields exampleTypeMap exampleWidthBits 0 "H"
      [("a", .Type_Bits 8 false), ("v", .Type_Varbits 32), ("b", .Type_Bits 16 false)]
  have h2 : create exampleTypeMap exampleWidthBits 1
      (.Type_StructLike .Type_Header "H"
        [("a", .Type_Bits 8 false), ("v", .Type_Varbits 32), ("b", .Type_Bits 16 false)])
      = .ok (some (.EBPFHeaderType (.Type_StructLike .Type_Header "H"
          [("a", .Type_Bits 8 false), ("v", .Type_Varbits 32), ("b", .Type_Bits 16 false)])
          24 "H"), [Diagnostic.varbitNotSupported (.Type_Varbits 32)]) := rfl
  rw [hc] at h2
  simp only [Except.ok.injEq, Prod.mk.injEq, Option.some.injEq] at h2
  rw [h2.2] at hc
  refine ⟨r, hc, ?_, ?_⟩
  · rw [hw]; rfl
  · rw [hi]; rfl

/-- C16: on a node of a class that `create` has no branch for, such as a varbit
type, `create` reports the one diagnostic that the type is not supported and
returns null; on a Boolean, `bit`/`int`, header or enum node it returns a
representation (of the Boolean, scalar, header, enum class). -/
theorem create_branches (typeMap : TypeMap) (width_bits : IRType → Nat) (fuel : Nat) :
    (∀ t : IRType, t.hasBranch = false →
        create typeMap width_bits (fuel + 1) t = .ok (none, [Diagnostic.typeNotSupported t]))
    ∧ (∀ size : Nat, (IRType.Type_Varbits size).hasBranch = false)
    ∧ create typeMap width_bits (fuel + 1) .Type_Boolean = .ok (some .EBPFBoolType, [])
    ∧ (∀ (size : Nat) (isSigned : Bool),
        create typeMap width_bits (fuel + 1) (.Type_Bits size isSigned)
          = .ok (some (.EBPFScalarType (.Type_Bits size isSigned) (size % UINT_RANGE) isSigned),
              []))
    ∧ (∀ (name : String) (fields : List StructField), ∃ w errs,
        create typeMap width_bits (fuel + 1) (.Type_StructLike .Type_Header name fields)
          = .ok (some (.EBPFHeaderType (.Type_StructLike .Type_Header name fields) w name),
              errs))
    ∧ (∀ (name : String) (members : List String),
        create typeMap width_bits (fuel + 1) (.Type_Enum name members)
          = .ok (some (.EBPFEnumType (.Type_Enum name members)), [])) := by
  refine ⟨?_, fun _ => rfl, ?_, ?_, ?_, ?_⟩
  · intro t ht
    cases t <;> first | (simp [IRType.hasBranch] at ht; done) | simp [create]
  · simp [create]
  · intro size isSigned
    simp [create]
  · intro name fields
    exact ⟨_, _, by rw [create_Type_Header, createHeader_eq]⟩
  · intro name members
    simp [create]

/-- Witness of C16: a varbit type at top level is not lowered. -/
theorem create_branches_witness :
    (IRType.Type_Varbits 32).hasBranch = false
    ∧ create exampleTypeMap exampleWidthBits 1 (.Type_Varbits 32)
        = .ok (none, [Diagnostic.typeNotSupported (.Type_Varbits 32)]) :=
  ⟨rfl, (create_branches exampleTypeMap exampleWidthBits 0).1 (.Type_Varbits 32) rfl⟩

/-! ## Induction over the representations that `create` returns -/

theorem fieldLoop_ok_inv (create : IRType → Created) :
    ∀ (fields : List StructField) (st st' : StructState),
      EBPFStructType.fieldLoop create fields st = .ok st' →
        ∃ rs : List (Option EBPFType × List Diagnostic),
          fields.map (fun f => create f.2) = rs.map Except.ok
  | [], _, _, _ => ⟨[], rfl⟩
  | f :: fs, st, st', h => by
      simp only [EBPFStructType.fieldLoop, EBPFStructType.fieldStep] at h
      cases hc : create f.2 with
      | error a => simp [hc] at h
      | ok p =>
          obtain ⟨type, errs⟩ := p
          simp only [hc] at h
          cases ht : toIHasWidth type with
          | none =>
              simp only [ht] at h
              obtain ⟨rs, hrs⟩ := fieldLoop_ok_inv create fs _ st' h
              exact ⟨(type, errs) :: rs, by simp [hc, hrs]⟩
          | some wt =>
              simp only [ht] at h
              obtain ⟨rs, hrs⟩ := fieldLoop_ok_inv create fs _ st' h
              exact ⟨(type, errs) :: rs, by simp [hc, hrs]⟩

theorem create_struct_inv (typeMap : TypeMap) (width_bits : IRType → Nat) (fuel : Nat)
    (k : StructLikeKind) (name : String) (fields : List StructField) (hh : k ≠ .Type_Header)
    (r : EBPFType) (errs : List Diagnostic)
    (h : create typeMap width_bits (fuel + 1) (.Type_StructLike k name fields)
          = .ok (some r, errs)) :
    (k = .Type_Struct ∨ k = .Type_HeaderUnion)
    ∧ ∃ rs : List (Option EBPFType × List Diagnostic),
        fields.map (fun f => create typeMap width_bits fuel f.2) = rs.map Except.ok
        ∧ r = .EBPFStructType (.Type_StructLike k name fields)
              (if k = .Type_Struct then "struct" else "union") name
              (fieldEntries fields rs)
              ((rs.map (fun p => widthOf p.1)).sum % UINT_RANGE)
              ((rs.map (fun p => implWidthOf p.1)).sum % UINT_RANGE)
        ∧ errs = (List.zipWith (fun f p => p.2 ++ ownDiagnostics f p.1) fields rs).flatten := by
  have hk : k = .Type_Struct ∨ k = .Type_HeaderUnion := by
    cases k
    · exact absurd rfl hh
    · exact Or.inl rfl
    · exact Or.inr rfl
    · simp [create, EBPFStructType.new, EBPFStructType.kindOf] at h
  refine ⟨hk, ?_⟩
  have hloop : ∃ st', EBPFStructType.fieldLoop (create typeMap width_bits fuel) fields
      ⟨[], 0, 0, []⟩ = .ok st' := by
    cases hl : EBPFStructType.fieldLoop (create typeMap width_bits fuel) fields ⟨[], 0, 0, []⟩ with
    | error a =>
        rcases hk with rfl | rfl <;>
          simp [create, EBPFStructType.new, EBPFStructType.kindOf, hl] at h
    | ok st' => exact ⟨st', rfl⟩
  obtain ⟨st', hst⟩ := hloop
  obtain ⟨rs, hrs⟩ := fieldLoop_ok_inv _ fields _ st' hst
  have heq := create_struct_eq typeMap width_bits fuel k name fields rs hk hrs
  rw [heq] at h
  simp only [Except.ok.injEq, Prod.mk.injEq, Option.some.injEq] at h
  exact ⟨rs, hrs, h.1.symm, h.2.symm⟩

theorem create_induction (typeMap : TypeMap) (width_bits : IRType → Nat)
    (P : EBPFType → List Diagnostic → Prop)
    (hBool : P .EBPFBoolType [])
    (hScalar : ∀ (size : Nat) (s : Bool),
      P (.EBPFScalarType (.Type_Bits size s) (size % UINT_RANGE) s) [])
    (hHeader : ∀ (name : String) (fields : List StructField),
      P (.EBPFHeaderType (.Type_StructLike .Type_Header name fields)
          (headerWidthSum typeMap width_bits fields % UINT_RANGE) name)
        (varbitDiagnostics typeMap fields
          ++ (if headerWidthSum typeMap width_bits fields % 8 ≠ 0
              then [Diagnostic.notIntegralBytes (.Type_StructLike .Type_Header name fields)]
              else [])))
    (hStruct : ∀ (k : StructLikeKind) (name : String) (fields : List StructField)
      (rs : List (Option EBPFType × List Diagnostic)),
      (k = .Type_Struct ∨ k = .Type_HeaderUnion) → fields.length = rs.length →
      (∀ p ∈ rs, ∀ c, p.1 = some c → P c p.2) →
      P (.EBPFStructType (.Type_StructLike k name fields)
          (if k = .Type_Struct then "struct" else "union") name (fieldEntries fields rs)
          ((rs.map (fun p => widthOf p.1)).sum % UINT_RANGE)
          ((rs.map (fun p => implWidthOf p.1)).sum % UINT_RANGE))
        (List.zipWith (fun f p => p.2 ++ ownDiagnostics f p.1) fields rs).flatten)
    (hTypedef : ∀ (name : String) (c : EBPFType) (errs : List Diagnostic),
      P c errs → P (.EBPFTypeName (.Type_Name name) (some c)) errs)
    (hName : ∀ (path : String) (canonical : Option EBPFType) (errs : List Diagnostic),
      (∀ c, canonical = some c → P c errs) → P (.EBPFTypeName (.Type_Name path) canonical) errs)
    (hEnum : ∀ (name : String) (members : List String),
      P (.EBPFEnumType (.Type_Enum name members)) [])
    (hStack : ∀ (elementType : IRType) (size : Nat) (e : EBPFType) (errs : List Diagnostic),
      P e errs → P (.EBPFStackType (.Type_Stack elementType size) e (size % UINT_RANGE)) errs) :
    ∀ (fuel : Nat) (t : IRType) (r : EBPFType) (errs : List Diagnostic),
      create typeMap width_bits fuel t = .ok (some r, errs) → P r errs := by
  intro fuel
  induction fuel with
  | zero =>
      intro t r errs h
      simp [create] at h
  | succ fuel ih =>
      intro t r errs h
      cases t with
      | Type_Boolean =>
          simp only [create, Except.ok.injEq, Prod.mk.injEq, Option.some.injEq] at h
          obtain ⟨rfl, rfl⟩ := h
          exact hBool
      | Type_Bits size s =>
          simp only [create, Except.ok.injEq, Prod.mk.injEq, Option.some.injEq] at h
          obtain ⟨rfl, rfl⟩ := h
          exact hScalar size s
      | Type_Varbits size => simp [create] at h
      | Type_StructLike k name fields =>
          by_cases hh : k = .Type_Header
          · subst hh
            rw [create_Type_Header, createHeader_eq] at h
            simp only [Except.ok.injEq, Prod.mk.injEq, Option.some.injEq] at h
            obtain ⟨rfl, rfl⟩ := h
            exact hHeader name fields
          · obtain ⟨hk, rs, hrs, rfl, rfl⟩ :=
              create_struct_inv typeMap width_bits fuel k name fields hh r errs h
            have hlen : fields.length = rs.length := by
              have := congrArg List.length hrs
              simpa using this
            refine hStruct k name fields rs hk hlen ?_
            intro p hp c hc
            have hmem : Except.ok p ∈ fields.map (fun f => create typeMap width_bits fuel f.2) := by
              rw [hrs]
              exact List.mem_map_of_mem _ hp
            obtain ⟨f, _, hf⟩ := List.mem_map.mp hmem
            apply ih f.2 c p.2
            rw [hf, ← hc]
      | Type_Typedef name ty =>
          simp only [create] at h
          cases hc : create typeMap width_bits fuel
              (typeMap.getTypeType (.Type_Typedef name ty)) with
          | error a => simp [hc] at h
          | ok p =>
              obtain ⟨res, es⟩ := p
              cases res with
              | none => simp [hc] at h
              | some c =>
                  simp only [hc, Except.ok.injEq, Prod.mk.injEq, Option.some.injEq] at h
                  obtain ⟨rfl, rfl⟩ := h
                  exact hTypedef name c es (ih _ c es hc)
      | Type_Name path =>
          simp only [create] at h
          cases hc : create typeMap width_bits fuel (typeMap.getTypeType (.Type_Name path)) with
          | error a => simp [hc] at h
          | ok p =>
              obtain ⟨res, es⟩ := p
              simp only [hc, Except.ok.injEq, Prod.mk.injEq, Option.some.injEq] at h
              obtain ⟨rfl, rfl⟩ := h
              refine hName path res es ?_
              rintro c rfl
              exact ih _ c es hc
      | Type_Enum name members =>
          simp only [create, Except.ok.injEq, Prod.mk.injEq, Option.some.injEq] at h
          obtain ⟨rfl, rfl⟩ := h
          exact hEnum name members
      | Type_Stack elementType size =>
          simp only [create] at h
          cases hc : create typeMap width_bits fuel elementType with
          | error a => simp [hc] at h
          | ok p =>
              obtain ⟨res, es⟩ := p
              cases res with
              | none => simp [hc] at h
              | some e =>
                  simp only [hc, EBPFStackType_new_eq, Except.ok.injEq, Prod.mk.injEq,
                    Option.some.injEq] at h
                  obtain ⟨rfl, rfl⟩ := h
                  exact hStack elementType size e es (ih _ e es hc)
      | Type_Other d => simp [create] at h

theorem mem_errors_of_field (fields : List StructField)
    (rs : List (Option EBPFType × List Diagnostic)) (hlen : fields.length = rs.length)
    (p : Option EBPFType × List Diagnostic) (hp : p ∈ rs) (d : Diagnostic) (hd : d ∈ p.2) :
    d ∈ (List.zipWith (fun f p => p.2 ++ ownDiagnostics f p.1) fields rs).flatten := by
  induction fields generalizing rs with
  | nil =>
      cases rs with
      | nil => simp at hp
      | cons q qs => simp at hlen
  | cons f fs ih =>
      cases rs with
      | nil => simp at hp
      | cons q qs =>
          simp only [List.length_cons, Nat.add_right_cancel_iff] at hlen
          simp only [List.zipWith_cons_cons, List.flatten_cons, List.mem_append]
          rcases List.mem_cons.mp hp with rfl | hp'
          · exact Or.inl (Or.inl hd)
          · exact Or.inr (ih qs hlen hp')

theorem sum_mod_eight (l : List Nat) (h : ∀ x ∈ l, x % 8 = 0) : l.sum % 8 = 0 := by
  induction l with
  | nil => rfl
  | cons x xs ih =>
      have hx := h x (List.mem_cons_self _ _)
      have hxs := ih (fun y hy => h y (List.mem_cons_of_mem _ hy))
      simp only [List.sum_cons]
      omega

/-! ## Byte alignment of the implementation width -/

/-- C17 as stated fails: on a header with a single `bit<3>` field `create`
returns a representation whose `implementationWidthInBits()` is 3, which is not
a multiple of 8. -/
theorem implementation_width_aligned_counterexample :
    create exampleTypeMap exampleWidthBits 1
        (.Type_StructLike .Type_Header "H" [("a", .Type_Bits 3 false)])
      = .ok (some (.EBPFHeaderType
            (.Type_StructLike .Type_Header "H" [("a", .Type_Bits 3 false)]) 3 "H"),
          [Diagnostic.notIntegralBytes
            (.Type_StructLike .Type_Header "H" [("a", .Type_Bits 3 false)])])
    ∧ (EBPFType.EBPFHeaderType
          (.Type_StructLike .Type_Header "H" [("a", .Type_Bits 3 false)]) 3 "H"
        ).implementationWidthInBits = (3, [])
    ∧ ¬ ((EBPFType.EBPFHeaderType
          (.Type_StructLike .Type_Header "H" [("a", .Type_Bits 3 false)]) 3 "H"
        ).implementationWidthInBits.1 % 8 = 0) := by
  refine ⟨rfl, rfl, by decide⟩

/-- C17, amended: for every representation that `create` returns without
reporting that the width of a header is not an integral number of bytes,
`implementationWidthInBits()` is a multiple of 8. -/
theorem implementation_width_aligned (typeMap : TypeMap) (width_bits : IRType → Nat)
    (fuel : Nat) (t : IRType) (r : EBPFType) (errs : List Diagnostic)
    (hc : create typeMap width_bits fuel t = .ok (some r, errs))
    (hal : ∀ d ∈ errs, d.isNotIntegralBytes = false) :
    r.implementationWidthInBits.1 % 8 = 0 := by
  refine create_induction typeMap width_bits
    (fun r errs => (∀ d ∈ errs, d.isNotIntegralBytes = false) →
      r.implementationWidthInBits.1 % 8 = 0)
    ?_ ?_ ?_ ?_ ?_ ?_ ?_ ?_ fuel t r errs hc hal
  · intro _
    rfl
  · intro size s _
    simp only [EBPFType.implementationWidthInBits, mod_UINT_RANGE_mod_eight]
    omega
  · intro name fields h
    simp only [EBPFType.implementationWidthInBits, mod_UINT_RANGE_mod_eight]
    by_contra hne
    have := h (Diagnostic.notIntegralBytes (.Type_StructLike .Type_Header name fields))
      (by simp [hne])
    simp [Diagnostic.isNotIntegralBytes] at this
  · intro k name fields rs _ hlen ih h
    simp only [EBPFType.implementationWidthInBits, mod_UINT_RANGE_mod_eight]
    apply sum_mod_eight
    intro x hx
    obtain ⟨p, hp, rfl⟩ := List.mem_map.mp hx
    cases hp1 : p.1 with
    | none => rfl
    | some c =>
        exact ih p hp c hp1 (fun d hd => h d (mem_errors_of_field fields rs hlen p hp d hd))
  · intro name c errs ih h
    simpa [EBPFType.implementationWidthInBits, isIHasWidth_eq_true] using ih h
  · intro path canonical errs ih h
    cases canonical with
    | none => rfl
    | some c =>
        simpa [EBPFType.implementationWidthInBits, isIHasWidth_eq_true] using ih c rfl h
  · intro _ _ _
    simp [EBPFType.implementationWidthInBits]
  · intro elementType size e errs ih h
    have he := ih h
    simp only [EBPFType.implementationWidthInBits, mod_UINT_RANGE_mod_eight]
    rw [Nat.mul_mod, he]
    simp

/-- Witness of the amended C17: the struct `S` with fields `a : bit<3>` and
`b : bit<16>` is lowered without a diagnostic, and its implementation width, 24,
is a multiple of 8. -/
theorem implementation_width_aligned_witness :
    (∃ r, create exampleTypeMap exampleWidthBits 2
          (.Type_StructLike .Type_Struct "S"
            [("a", .Type_Bits 3 false), ("b", .Type_Bits 16 false)]) = .ok (some r, [])
        ∧ r.implementationWidthInBits = (24, [])
        ∧ r.implementationWidthInBits.1 % 8 = 0)
    ∧ ∀ d ∈ ([] : List Diagnostic), d.isNotIntegralBytes = false :=
  ⟨⟨_, rfl, rfl,
      implementation_width_aligned exampleTypeMap exampleWidthBits 2
        (.Type_StructLike .Type_Struct "S"
          [("a", .Type_Bits 3 false), ("b", .Type_Bits 16 false)]) _ [] rfl
        (fun _ hd => absurd hd (List.not_mem_nil _))⟩,
    fun _ hd => absurd hd (List.not_mem_nil _)⟩

/-! ## The definition of a header -/

/-- C18: `emit` of a header representation writes `struct`, the name and a block
with exactly two members, each on its line and ended by `;`: the array
`char data[k]` with `k = width / 8`, and the flag `valid` as `declare` of the
Boolean representation writes it, `u8 valid`, the Boolean representation being
what `create` returns on the Boolean type. The array holds `8 * (width / 8)`
bits, which is `implementationWidthInBits()` exactly when the width is a
multiple of 8; the byte of the flag is not part of that width. -/
theorem header_emit (type : IRType) (width : Nat) (name : String) (toStr : IRType → String)
    (b : CodeBuilder) :
    (EBPFType.EBPFHeaderType type width name).emit toStr b
        = .ok ⟨b.buffer ++ (indentText b.indentLevel ++ "struct" ++ " " ++ name ++ " " ++ "\x7b"
            ++ "\n"
            ++ indentText (b.indentLevel + indentAmount) ++ "char data[" ++ toString (width / 8)
            ++ "]" ++ ";" ++ "\n"
            ++ indentText (b.indentLevel + indentAmount) ++ "u8 valid" ++ ";" ++ "\n"
            ++ indentText b.indentLevel ++ "\x7d" ++ ";" ++ "\n"), b.indentLevel⟩
    ∧ (∀ (typeMap : TypeMap) (width_bits : IRType → Nat) (fuel : Nat),
        create typeMap width_bits (fuel + 1) .Type_Boolean = .ok (some .EBPFBoolType, []))
    ∧ (∀ b' : CodeBuilder, EBPFType.EBPFBoolType.declare b' "valid"
        = .ok ⟨b'.buffer ++ "u8 valid", b'.indentLevel⟩)
    ∧ (8 * (width / 8) = (EBPFType.EBPFHeaderType type width name).implementationWidthInBits.1
        ↔ width % 8 = 0)
    ∧ (EBPFType.EBPFHeaderType type width name).implementationWidthInBits = (width, [])
    ∧ (EBPFType.EBPFHeaderType (.Type_StructLike .Type_Header "H" []) 16 "H").emit toStr ⟨"", 0⟩
        = .ok ⟨"struct H \x7b\n    char data[2];\n    u8 valid;\n\x7d;\n", 0⟩ := by
  refine ⟨?_, ?_, ?_, ?_, rfl, rfl⟩
  · simp [EBPFType.emit, EBPFHeaderType.emit, EBPFBoolType.declare, EBPFBoolType.emit,
      CodeBuilder.blockStart, CodeBuilder.blockEnd, CodeBuilder.endOfStatement,
      CodeBuilder.emitIndent, CodeBuilder.spc, CodeBuilder.newline, CodeBuilder.append,
      indentText, String.append_assoc]
  · intro typeMap width_bits fuel
    simp [create]
  · intro b'
    simp [EBPFType.declare, EBPFBoolType.declare, EBPFBoolType.emit, CodeBuilder.append,
      String.append_assoc]
  · simp only [EBPFType.implementationWidthInBits]
    omega

/-! ## The kinds that the struct constructor and `emitInitializer` accept -/

theorem linesOf_error {α : Type} (line : α → Except Abort String) :
    ∀ (xs : List α) (a : Abort), linesOf line xs = .error a → ∃ x ∈ xs, line x = .error a
  | [], a, h => by simp [linesOf] at h
  | x :: xs, a, h => by
      simp only [linesOf] at h
      cases hx : line x with
      | error a' =>
          simp only [hx, Except.error.injEq] at h
          subst h
          exact ⟨x, List.mem_cons_self _ _, hx⟩
      | ok l =>
          cases hxs : linesOf line xs with
          | error a' =>
              simp only [hx, hxs, Except.error.injEq] at h
              subst h
              obtain ⟨y, hy, hl⟩ := linesOf_error line xs a' hxs
              exact ⟨y, List.mem_cons_of_mem _ hy, hl⟩
          | ok ls => simp [hx, hxs] at h

theorem textOf_error (e : Emitted) (a : Abort) (h : textOf e = .error a) : e = .error a := by
  cases e with
  | error a' =>
      simp only [textOf, Except.error.injEq] at h
      rw [h]
  | ok b => simp [textOf] at h

theorem appendText_error (b : CodeBuilder) (text : Except Abort String) (a : Abort)
    (h : appendText b text = .error a) : text = .error a := by
  cases text with
  | error a' =>
      simp only [appendText, Except.error.injEq] at h
      rw [h]
  | ok s => simp [appendText] at h

theorem created_initializer_failure (typeMap : TypeMap) (width_bits : IRType → Nat)
    (fuel : Nat) (t : IRType) (r : EBPFType) (errs : List Diagnostic)
    (hc : create typeMap width_bits fuel t = .ok (some r, errs)) :
    ∀ (b : CodeBuilder) (a : Abort), r.emitInitializer b = .error a → a = .nullDereference := by
  refine create_induction typeMap width_bits
    (fun r _ => ∀ (b : CodeBuilder) (a : Abort),
      r.emitInitializer b = .error a → a = .nullDereference)
    ?_ ?_ ?_ ?_ ?_ ?_ ?_ ?_ fuel t r errs hc
  · intro b a h
    simp [EBPFType.emitInitializer] at h
  · intro size s b a h
    simp [EBPFType.emitInitializer] at h
  · intro name fields b a h
    simp [EBPFType.emitInitializer] at h
  · intro k name fields rs hk hlen ih b a h
    rw [struct_initializer_text k name fields hk] at h
    have h1 := appendText_error _ _ _ h
    cases hl : linesOf (initializerLine (b.indentLevel + indentAmount))
        (fieldEntries fields rs) with
    | ok ls => simp [hl] at h1
    | error a' =>
        simp only [hl, Except.error.injEq] at h1
        subst h1
        obtain ⟨ef, hef, hline⟩ := linesOf_error _ _ _ hl
        have hty : ef.type ∈ rs.map (fun p => p.1) := by
          rw [← (fieldEntries_field fields rs hlen).2]
          exact List.mem_map_of_mem (fun ef => ef.type) hef
        obtain ⟨p, hp, hpe⟩ := List.mem_map.mp hty
        simp only [initializerLine] at hline
        cases hc' : ef.type with
        | none =>
            simp only [hc', Except.error.injEq] at hline
            exact hline.symm
        | some c =>
            simp only [hc'] at hline
            cases hi : initializerText c (b.indentLevel + indentAmount) with
            | ok v => simp [hi] at hline
            | error a'' =>
                simp only [hi, Except.error.injEq] at hline
                subst hline
                exact ih p hp c (hpe.trans hc') _ _ (textOf_error _ _ hi)
  · intro name c errs ih b a h
    exact ih b a (by simpa [EBPFType.emitInitializer] using h)
  · intro path canonical errs ih b a h
    cases canonical with
    | none => simp [EBPFType.emitInitializer] at h
    | some c => exact ih c rfl b a (by simpa [EBPFType.emitInitializer] using h)
  · intro name members b a h
    simp [EBPFType.emitInitializer] at h
  · intro elementType size e errs ih b a h
    rw [stack_initializer_text] at h
    cases hn : size % UINT_RANGE with
    | zero => simp [hn] at h
    | succ m =>
        simp only [hn] at h
        have h1 := appendText_error _ _ _ h
        cases hi : initializerText e b.indentLevel with
        | ok v => simp [hi] at h1
        | error a' =>
            simp only [hi, Except.error.injEq] at h1
            subst h1
            exact ih _ _ (textOf_error _ _ hi)

/-- C19: when the constructor of `EBPFStructType` completes on a struct-like
node, the node is a struct or a header union, the kind tag is `struct` for a
struct and `union` for a header union, and `emitInitializer` of the
representation takes the branch of the loop over the fields: it writes the
braces around the lines of the fields, or fails as a line fails. On a node of
another kind the constructor ends in its `BUG`, and `emitInitializer` of a
struct representation whose node is of another kind ends in the `BUG`
"Unexpected type". On a representation that `create` returns (at any depth of
nesting) `emitInitializer` never ends in that `BUG`. -/
theorem struct_initializer_kinds (create' : IRType → Created) (k : StructLikeKind)
    (name : String) (fields : List StructField) (r : EBPFType) (errs : List Diagnostic)
    (h : EBPFStructType.new create' (.Type_StructLike k name fields) k name fields
          = .ok (r, errs)) :
    (k = .Type_Struct ∨ k = .Type_HeaderUnion)
    ∧ (∃ (entries : List (EBPFField EBPFType)) (w iw : Nat),
        r = .EBPFStructType (.Type_StructLike k name fields)
              (if k = .Type_Struct then "struct" else "union") name entries w iw
        ∧ ∀ b : CodeBuilder,
            r.emitInitializer b
              = appendText b
                  (match linesOf (initializerLine (b.indentLevel + indentAmount)) entries with
                  | .error a => .error a
                  | .ok ls =>
                      .ok ("\x7b" ++ "\n" ++ concatLines ls ++ indentText b.indentLevel
                        ++ "\x7d")))
    ∧ (∀ (k' : StructLikeKind) (strct : IRType) (name' : String) (fields' : List StructField),
        k' = .Type_Header ∨ k' = .Other →
          EBPFStructType.new create' strct k' name' fields'
            = .error (.bug "Unexpected struct type"))
    ∧ (∀ (type : IRType) (kind name' : String) (fs : List (EBPFField EBPFType)) (w iw : Nat)
        (b : CodeBuilder),
        (∀ k' n0 f0, type = .Type_StructLike k' n0 f0 → k' = .Type_Header ∨ k' = .Other) →
          (EBPFType.EBPFStructType type kind name' fs w iw).emitInitializer b
            = .error (.bug "Unexpected type"))
    ∧ (∀ (typeMap : TypeMap) (width_bits : IRType → Nat) (fuel : Nat) (t : IRType)
        (r' : EBPFType) (errs' : List Diagnostic) (b : CodeBuilder),
        create typeMap width_bits fuel t = .ok (some r', errs') →
          r'.emitInitializer b ≠ .error (.bug "Unexpected type")) := by
  have hk : k = .Type_Struct ∨ k = .Type_HeaderUnion := by
    cases k
    · simp [EBPFStructType.new, EBPFStructType.kindOf] at h
    · exact Or.inl rfl
    · exact Or.inr rfl
    · simp [EBPFStructType.new, EBPFStructType.kindOf] at h
  refine ⟨hk, ?_, ?_, ?_, ?_⟩
  · cases hl : EBPFStructType.fieldLoop create' fields ⟨[], 0, 0, []⟩ with
    | error a =>
        rcases hk with rfl | rfl <;> simp [EBPFStructType.new, EBPFStructType.kindOf, hl] at h
    | ok st =>
        refine ⟨st.fields, st.width, st.implWidth, ?_, ?_⟩
        · rcases hk with rfl | rfl <;>
            simp only [EBPFStructType.new, EBPFStructType.kindOf, hl, Except.ok.injEq,
              Prod.mk.injEq] at h <;>
            simp [← h.1]
        · intro b
          have hr : r = .EBPFStructType (.Type_StructLike k name fields)
              (if k = .Type_Struct then "struct" else "union") name st.fields st.width
              st.implWidth := by
            rcases hk with rfl | rfl <;>
              simp only [EBPFStructType.new, EBPFStructType.kindOf, hl, Except.ok.injEq,
                Prod.mk.injEq] at h <;>
              simp [← h.1]
          rw [hr]
          exact struct_initializer_text k name fields hk _ _ _ _ _ b
  · rintro k' strct name' fields' (rfl | rfl) <;> rfl
  · intro type kind name' fs w iw b hty
    rcases type with _ | _ | _ | ⟨k', n0, f0⟩ | _ | _ | _ | _ | _
    case Type_StructLike =>
      rcases hty k' n0 f0 rfl with rfl | rfl <;> simp [EBPFType.emitInitializer]
    all_goals simp [EBPFType.emitInitializer]
  · intro typeMap width_bits fuel t r' errs' b hc hbug
    have := created_initializer_failure typeMap width_bits fuel t r' errs' hc b _ hbug
    cases this

/-- Witness of C19: the constructor completes on the header union `U` with a
field `a : bit<8>`, with the kind tag `union`. -/
theorem struct_initializer_kinds_witness :
    EBPFStructType.new (create exampleTypeMap exampleWidthBits 1)
        (.Type_StructLike .Type_HeaderUnion "U" [("a", .Type_Bits 8 false)])
        .Type_HeaderUnion "U" [("a", .Type_Bits 8 false)]
      = .ok (.EBPFStructType (.Type_StructLike .Type_HeaderUnion "U" [("a", .Type_Bits 8 false)])
          "union" "U"
          [⟨none, some (.EBPFScalarType (.Type_Bits 8 false) 8 false),
            ("a", .Type_Bits 8 false)⟩] 8 8, [])
    ∧ (StructLikeKind.Type_HeaderUnion = .Type_Struct
        ∨ StructLikeKind.Type_HeaderUnion = .Type_HeaderUnion)
    ∧ (EBPFType.EBPFStructType
          (.Type_StructLike .Type_HeaderUnion "U" [("a", .Type_Bits 8 false)]) "union" "U"
          [⟨none, some (.EBPFScalarType (.Type_Bits 8 false) 8 false),
            ("a", .Type_Bits 8 false)⟩] 8 8).emitInitializer ⟨"", 0⟩
        = .ok ⟨"\x7b\n    .a = 0,\n\x7d", 0⟩ :=
  ⟨rfl,
    (struct_initializer_kinds (create exampleTypeMap exampleWidthBits 1) .Type_HeaderUnion "U"
      [("a", .Type_Bits 8 false)] _ [] rfl).1,
    rfl⟩

/-! ## Logical width against implementation width -/

theorem noOverflowFields_mem :
    ∀ (fs : List (EBPFField EBPFType)), noOverflowFields fs = true →
      ∀ ef ∈ fs, ∀ c, ef.type = some c → c.noOverflow = true
  | [], _, ef, hef, _, _ => by simp at hef
  | ⟨cm, none, f⟩ :: fs, h, ef, hef, c, hc => by
      simp only [noOverflowFields] at h
      rcases List.mem_cons.mp hef with rfl | hef'
      · simp at hc
      · exact noOverflowFields_mem fs h ef hef' c hc
  | ⟨cm, some t, f⟩ :: fs, h, ef, hef, c, hc => by
      simp only [noOverflowFields, Bool.and_eq_true] at h
      rcases List.mem_cons.mp hef with rfl | hef'
      · simp only [Option.some.injEq] at hc
        subst hc
        exact h.1
      · exact noOverflowFields_mem fs h.2 ef hef' c hc

theorem sum_map_le_sum_map {α : Type} (l : List α) (f g : α → Nat)
    (h : ∀ x ∈ l, f x ≤ g x) : (l.map f).sum ≤ (l.map g).sum := by
  induction l with
  | nil => exact Nat.le_refl _
  | cons x xs ih =>
      have hx := h x (List.mem_cons_self _ _)
      have hxs := ih (fun y hy => h y (List.mem_cons_of_mem _ hy))
      simp only [List.map_cons, List.sum_cons]
      omega

/-- C20: for every representation that `create` returns, when the `unsigned`
arithmetic behind its widths does not overflow, `widthInBits()` is at most
`implementationWidthInBits()`. -/
theorem width_le_implementation_width (typeMap : TypeMap) (width_bits : IRType → Nat)
    (fuel : Nat) (t : IRType) (r : EBPFType) (errs : List Diagnostic)
    (hc : create typeMap width_bits fuel t = .ok (some r, errs))
    (hno : r.noOverflow = true) :
    r.widthInBits.1 ≤ r.implementationWidthInBits.1 := by
  refine create_induction typeMap width_bits
    (fun r _ => r.noOverflow = true → r.widthInBits.1 ≤ r.implementationWidthInBits.1)
    ?_ ?_ ?_ ?_ ?_ ?_ ?_ ?_ fuel t r errs hc hno
  · intro _
    simp [EBPFType.widthInBits, EBPFType.implementationWidthInBits]
  · intro size s h
    simp only [EBPFType.noOverflow, decide_eq_true_eq] at h
    simp only [EBPFType.widthInBits, EBPFType.implementationWidthInBits, Nat.mod_eq_of_lt h]
    rw [bytesRequired_eq]
    omega
  · intro name fields _
    simp [EBPFType.widthInBits, EBPFType.implementationWidthInBits]
  · intro k name fields rs _ hlen ih h
    simp only [EBPFType.noOverflow, Bool.and_eq_true, decide_eq_true_eq] at h
    obtain ⟨⟨hw, hiw⟩, hfs⟩ := h
    have hent := (fieldEntries_field fields rs hlen).2
    have hmapw : (fieldEntries fields rs).map (fun ef => widthOf ef.type)
        = rs.map (fun p => widthOf p.1) := by
      have := congrArg (List.map widthOf) hent
      simpa [List.map_map, Function.comp] using this
    have hmapi : (fieldEntries fields rs).map (fun ef => implWidthOf ef.type)
        = rs.map (fun p => implWidthOf p.1) := by
      have := congrArg (List.map implWidthOf) hent
      simpa [List.map_map, Function.comp] using this
    rw [hmapw] at hw
    rw [hmapi] at hiw
    simp only [EBPFType.widthInBits, EBPFType.implementationWidthInBits, Nat.mod_eq_of_lt hw,
      Nat.mod_eq_of_lt hiw]
    apply sum_map_le_sum_map
    intro p hp
    cases hp1 : p.1 with
    | none => exact Nat.le_refl _
    | some c =>
        have hmem : some c ∈ (fieldEntries fields rs).map (fun ef => ef.type) := by
          rw [hent, ← hp1]
          exact List.mem_map_of_mem (fun p => p.1) hp
        obtain ⟨ef, hef, hty⟩ := List.mem_map.mp hmem
        exact ih p hp c hp1 (noOverflowFields_mem _ hfs ef hef c hty)
  · intro name c errs ih h
    simp only [EBPFType.noOverflow] at h
    simpa [EBPFType.widthInBits, EBPFType.implementationWidthInBits, isIHasWidth_eq_true]
      using ih h
  · intro path canonical errs ih h
    cases canonical with
    | none => simp [EBPFType.widthInBits, EBPFType.implementationWidthInBits]
    | some c =>
        simp only [EBPFType.noOverflow] at h
        simpa [EBPFType.widthInBits, EBPFType.implementationWidthInBits, isIHasWidth_eq_true]
          using ih c rfl h
  · intro name members _
    simp [EBPFType.widthInBits, EBPFType.implementationWidthInBits]
  · intro elementType size e errs ih h
    simp only [EBPFType.noOverflow, Bool.and_eq_true, decide_eq_true_eq] at h
    obtain ⟨⟨hw, hiw⟩, he⟩ := h
    simp only [EBPFType.widthInBits, EBPFType.implementationWidthInBits, Nat.mod_eq_of_lt hw,
      Nat.mod_eq_of_lt hiw]
    exact Nat.mul_le_mul_left _ (ih he)

/-- Witness of C20: the struct `S` with a field `a : bit<3>` and a field `s`
that is a stack of four `Byte`, the type name of `bit<8>`, is lowered to a
representation with logical width 35 and implementation width 40. -/
theorem width_le_implementation_width_witness :
    create exampleTypeMap exampleWidthBits 4 exampleStruct
        = .ok (some exampleStructRepresentation, [])
    ∧ exampleStructRepresentation.noOverflow = true
    ∧ exampleStructRepresentation.widthInBits = (35, [])
    ∧ exampleStructRepresentation.implementationWidthInBits = (40, [])
    ∧ exampleStructRepresentation.widthInBits.1
        ≤ exampleStructRepresentation.implementationWidthInBits.1 :=
  ⟨rfl, rfl, rfl, rfl,
    width_le_implementation_width exampleTypeMap exampleWidthBits 4 exampleStruct
      exampleStructRepresentation [] rfl rfl⟩

/-! ## The width capability of the representations that `create` returns -/

theorem fieldLoop_error_inv (create : IRType → Created) :
    ∀ (fields : List StructField) (st : StructState) (a : Abort),
      EBPFStructType.fieldLoop create fields st = .error a →
        ∃ f ∈ fields, create f.2 = .error a
  | [], _, _, h => by simp [EBPFStructType.fieldLoop] at h
  | f :: fs, st, a, h => by
      simp only [EBPFStructType.fieldLoop, EBPFStructType.fieldStep] at h
      cases hc : create f.2 with
      | error a' =>
          simp only [hc, Except.error.injEq] at h
          subst h
          exact ⟨f, List.mem_cons_self _ _, hc⟩
      | ok p =>
          obtain ⟨type, errs⟩ := p
          simp only [hc] at h
          cases ht : toIHasWidth type with
          | none =>
              simp only [ht] at h
              obtain ⟨g, hg, hga⟩ := fieldLoop_error_inv create fs _ a h
              exact ⟨g, List.mem_cons_of_mem _ hg, hga⟩
          | some wt =>
              simp only [ht] at h
              obtain ⟨g, hg, hga⟩ := fieldLoop_error_inv create fs _ a h
              exact ⟨g, List.mem_cons_of_mem _ hg, hga⟩

theorem create_abort (typeMap : TypeMap) (width_bits : IRType → Nat) :
    ∀ (fuel : Nat) (t : IRType) (a : Abort), create typeMap width_bits fuel t = .error a →
      a = .timeout ∨ a = .bug "Unexpected struct type" := by
  intro fuel
  induction fuel with
  | zero =>
      intro t a h
      simp only [create, Except.error.injEq] at h
      exact Or.inl h.symm
  | succ fuel ih =>
      intro t a h
      cases t with
      | Type_Boolean => simp [create] at h
      | Type_Bits size s => simp [create] at h
      | Type_Varbits size => simp [create] at h
      | Type_StructLike k name fields =>
          cases k with
          | Type_Header => simp [create] at h
          | Other =>
              simp only [create, EBPFStructType.new, EBPFStructType.kindOf,
                Except.error.injEq] at h
              exact Or.inr h.symm
          | Type_Struct =>
              simp only [create, EBPFStructType.new, EBPFStructType.kindOf] at h
              cases hl : EBPFStructType.fieldLoop (create typeMap width_bits fuel) fields
                  ⟨[], 0, 0, []⟩ with
              | ok st => simp [hl] at h
              | error a' =>
                  simp only [hl, Except.error.injEq] at h
                  subst h
                  obtain ⟨f, _, hf⟩ := fieldLoop_error_inv _ fields _ _ hl
                  exact ih f.2 _ hf
          | Type_HeaderUnion =>
              simp only [create, EBPFStructType.new, EBPFStructType.kindOf] at h
              cases hl : EBPFStructType.fieldLoop (create typeMap width_bits fuel) fields
                  ⟨[], 0, 0, []⟩ with
              | ok st => simp [hl] at h
              | error a' =>
                  simp only [hl, Except.error.injEq] at h
                  subst h
                  obtain ⟨f, _, hf⟩ := fieldLoop_error_inv _ fields _ _ hl
                  exact ih f.2 _ hf
      | Type_Typedef name ty =>
          simp only [create] at h
          cases hc : create typeMap width_bits fuel
              (typeMap.getTypeType (.Type_Typedef name ty)) with
          | error a' =>
              simp only [hc, Except.error.injEq] at h
              subst h
              exact ih _ _ hc
          | ok p =>
              obtain ⟨res, es⟩ := p
              cases res <;> simp [hc] at h
      | Type_Name path =>
          simp only [create] at h
          cases hc : create typeMap width_bits fuel (typeMap.getTypeType (.Type_Name path)) with
          | error a' =>
              simp only [hc, Except.error.injEq] at h
              subst h
              exact ih _ _ hc
          | ok p => simp [hc] at h
      | Type_Enum name members => simp [create] at h
      | Type_Stack elementType size =>
          simp only [create] at h
          cases hc : create typeMap width_bits fuel elementType with
          | error a' =>
              simp only [hc, Except.error.injEq] at h
              subst h
              exact ih _ _ hc
          | ok p =>
              obtain ⟨res, es⟩ := p
              cases res with
              | none => simp [hc] at h
              | some e => simp [hc, EBPFStackType_new_eq] at h
      | Type_Other d => simp [create] at h

theorem fieldStep_errors (create : IRType → Created) (st : StructState) (f : StructField)
    (type : Option EBPFType) (errs : List Diagnostic) (hc : create f.2 = .ok (type, errs)) :
    ∃ st', EBPFStructType.fieldStep create st f = .ok st'
      ∧ st'.errors = st.errors ++ errs ++ ownDiagnostics f type
      ∧ st'.fields = st.fields ++ [⟨none, type, f⟩] := by
  cases type with
  | none =>
      simp only [EBPFStructType.fieldStep, hc, toIHasWidth]
      exact ⟨_, rfl, rfl, rfl⟩
  | some wt =>
      simp only [EBPFStructType.fieldStep, hc, toIHasWidth, isIHasWidth_eq_true, if_true]
      refine ⟨_, rfl, ?_, rfl⟩
      simp [ownDiagnostics, List.append_assoc]

theorem unsupported_mem_ownDiagnostics (f : StructField) (type : Option EBPFType) :
    Diagnostic.unsupportedInStruct f.2 ∈ ownDiagnostics f type ↔ type = none := by
  cases type with
  | none => simp [ownDiagnostics]
  | some wt =>
      simp only [reduceCtorEq, iff_false]
      intro hmem
      rcases List.mem_append.mp hmem with h | h
      · have := widthInBits_not_unsupported wt _ h
        simp [Diagnostic.isUnsupportedInStruct] at this
      · have := implementationWidthInBits_not_unsupported wt _ h
        simp [Diagnostic.isUnsupportedInStruct] at this

/-- C21: every representation is of a class that implements `IHasWidth`, so the
cast to `IHasWidth` of a representation that `create` returns succeeds. The
constructor of a stack therefore passes its check on every element, `create` on
a stack node whose element is lowered returns the stack representation, and
`create` never ends in the `BUG` "Unexpected element type", at any depth. In the
loop of the struct constructor, a field on whose type `create` completes gets
the diagnostic "Unsupported type in struct" exactly when `create` returned null
for it, and then exactly once. A stack of two Booleans is lowered; the struct
with a varbit field and a `bit<8>` field gets that diagnostic for the varbit
field only. -/
theorem width_capability (typeMap : TypeMap) (width_bits : IRType → Nat) :
    (∀ r : EBPFType, r.isIHasWidth = true ∧ toIHasWidth (some r) = some r)
    ∧ (∀ (fuel : Nat) (t : IRType) (r : EBPFType) (errs : List Diagnostic),
        create typeMap width_bits fuel t = .ok (some r, errs) →
          r.isIHasWidth = true ∧ toIHasWidth (some r) = some r)
    ∧ (∀ (type : IRType) (e : EBPFType) (n : Nat),
        EBPFStackType.new type e n = .ok (.EBPFStackType type e n))
    ∧ (∀ (fuel : Nat) (elementType : IRType) (size : Nat) (e : EBPFType)
        (errs : List Diagnostic),
        create typeMap width_bits fuel elementType = .ok (some e, errs) →
          create typeMap width_bits (fuel + 1) (.Type_Stack elementType size)
            = .ok (some (.EBPFStackType (.Type_Stack elementType size) e (size % UINT_RANGE)),
                errs))
    ∧ (∀ (fuel : Nat) (t : IRType),
        create typeMap width_bits fuel t ≠ .error (.bug "Unexpected element type"))
    ∧ (∀ (create' : IRType → Created) (st : StructState) (f : StructField)
        (type : Option EBPFType) (errs : List Diagnostic),
        create' f.2 = .ok (type, errs) →
          ∃ st', EBPFStructType.fieldStep create' st f = .ok st'
            ∧ st'.errors = st.errors ++ errs ++ ownDiagnostics f type
            ∧ (Diagnostic.unsupportedInStruct f.2 ∈ ownDiagnostics f type ↔ type = none)
            ∧ (ownDiagnostics f type).countP Diagnostic.isUnsupportedInStruct
                = if type.isNone then 1 else 0)
    ∧ create exampleTypeMap exampleWidthBits 2 (.Type_Stack .Type_Boolean 2)
        = .ok (some (.EBPFStackType (.Type_Stack .Type_Boolean 2) .EBPFBoolType 2), [])
    ∧ create exampleTypeMap exampleWidthBits 2
          (.Type_StructLike .Type_Struct "P"
            [("v", .Type_Varbits 32), ("a", .Type_Bits 8 false)])
        = .ok (some (.EBPFStructType
              (.Type_StructLike .Type_Struct "P"
                [("v", .Type_Varbits 32), ("a", .Type_Bits 8 false)]) "struct" "P"
              [⟨none, none, ("v", .Type_Varbits 32)⟩,
               ⟨none, some (.EBPFScalarType (.Type_Bits 8 false) 8 false),
                 ("a", .Type_Bits 8 false)⟩] 8 8),
            [Diagnostic.typeNotSupported (.Type_Varbits 32),
             Diagnostic.unsupportedInStruct (.Type_Varbits 32)]) := by
  have hcap : ∀ r : EBPFType, r.isIHasWidth = true ∧ toIHasWidth (some r) = some r :=
    fun r => ⟨isIHasWidth_eq_true r, toIHasWidth_eq (some r)⟩
  refine ⟨hcap, fun _ _ r _ _ => hcap r, EBPFStackType_new_eq, ?_, ?_, ?_, rfl, rfl⟩
  · intro fuel elementType size e errs hc
    simp only [create, hc, EBPFStackType_new_eq]
  · intro fuel t h
    rcases create_abort typeMap width_bits fuel t _ h with h' | h'
    · cases h'
    · have := Abort.bug.inj h'
      exact absurd this (by decide)
  · intro create' st f type errs hc
    obtain ⟨st', hs, he, _⟩ := fieldStep_errors create' st f type errs hc
    exact ⟨st', hs, he, unsupported_mem_ownDiagnostics f type, ownDiagnostics_count f type⟩


end EBPF
